/-
  Verification development for the os1test-dev AArch64 kernel.

  Shallow embedding of the kernel subsystems that the specification's
  claims are about, together with theorems settling each claim:

  * process table and round-robin scheduler  (kernel process pool, schedule)
  * kernel heap                              (kernel/lib/kmalloc.c)
  * VirtIO block driver request protocol     (kernel/drivers/virtio/virtio_blk.c)
  * page-table entry flags and ELF loading   (kernel/include/kernel/vmm.h, kernel/sched/elf.c)
  * window compositor                        (kernel/graphics/compositor.c)
  * write syscall routing                    (kernel/arch/aarch64/cpu/syscall.c)
  * physical page allocator                  (kernel/mm/pmm.c)

  Machine integers are modelled as Nat (with explicit wrap-around where the
  C code can overflow); C int values that can be negative are modelled as Int
  with truncated division/remainder (Int.tmod), matching C99 semantics.
-/
import Mathlib

/-! ## Process table and scheduler

Embeds the process pool state of the scheduler translation unit
(MAX_PROCESSES, process_pool, process_count, current_pid, current_process)
and the function schedule.  A process record keeps the fields schedule
touches: the saved-frame pointer (context), the state word, and the
page-table root.  Pointers are modelled as Nat. -/

/-- Process state constants from kernel/include/kernel/sched.h. -/
def PROC_UNUSED : Nat := 0

/-- State constant PROC_CREATED from sched.h. -/
def PROC_CREATED : Nat := 1

/-- State constant PROC_RUNNING from sched.h. -/
def PROC_RUNNING : Nat := 2

/-- State constant PROC_ZOMBIE from sched.h. -/
def PROC_ZOMBIE : Nat := 3

/-- The fields of struct process (sched.h) that the scheduler reads or
writes: pid, the saved register-frame pointer, the state word and the
page-table root (physical address). -/
structure Proc where
  pid : Nat
  context : Nat
  state : Nat
  page_table : Nat
deriving DecidableEq, Repr

/-- Default process value used for out-of-range array reads (never hit by
the theorems, which carry the necessary bounds). -/
def procDflt : Proc := ⟨0, 0, 0, 0⟩

/-- Scheduler globals: the populated prefix of process_pool (length =
process_count), current_pid (a C int, -1 before the first process starts),
the index of current_process in the pool (none when current_process is
NULL), and the installed translation-table base. -/
structure SchedState where
  pool : List Proc
  current_pid : Int
  current : Option Nat
  ttbr : Nat
deriving DecidableEq, Repr

/-- In-place update of the i-th list element, used to model a store through
process_pool of the current process's fields. -/
def modifyAt : List α → Nat → (α → α) → List α
  | [], _, _ => []
  | a :: as, 0, f => f a :: as
  | a :: as, n + 1, f => a :: modifyAt as n f

/-- Embedding of schedule(regs): if the pool is empty return regs
unchanged; otherwise save the frame pointer and set the state of the
current process, advance current_pid by one modulo process_count, install
the next process's page table and return its saved context. -/
def schedule (st : SchedState) (regs : Nat) : SchedState × Nat :=
  if st.pool.length = 0 then (st, regs)
  else
    let pool1 :=
      match st.current with
      | none => st.pool
      | some i => modifyAt st.pool i (fun p => { p with context := regs, state := PROC_RUNNING })
    let n : Int := (st.current_pid + 1).tmod (pool1.length : Int)
    let next := pool1.getD n.toNat procDflt
    ({ pool := pool1, current_pid := n, current := some n.toNat, ttbr := next.page_table },
      next.context)

/-- Iterate the timer-driven scheduler for a number of ticks (the saved
register frame passed in is irrelevant to the selection sequence; 0 is
used). -/
def scheduleTicks (st : SchedState) : Nat → SchedState
  | 0 => st
  | n + 1 => (schedule (scheduleTicks st n) 0).1

/-- Number of ticks t in a window of n consecutive ticks at which the
process with pool index i is selected (i.e. current_pid equals i right
after tick t). -/
def selectedCount (st : SchedState) (n : Nat) (i : Int) : Nat :=
  ((Finset.range n).filter (fun t => (scheduleTicks st (t + 1)).current_pid = i)).card

/-! ## Kernel heap (kernel/lib/kmalloc.c)

Block headers live 32 bytes (sizeof(struct block_header), 16-byte aligned)
below the payload pointer.  The intrusive singly-linked free list threaded
through block headers is represented as the list of block addresses in
chain order; kfree prepends, kmalloc removes the first fitting block.
pr_err calls are modelled by an error counter. -/

/-- Magic value BLOCK_MAGIC from kmalloc.c. -/
def BLOCK_MAGIC : Nat := 0xDEADBEEF

/-- The value kfree stores into the magic word of a freed block. -/
def FREED_MAGIC : Nat := 0xFEEEFEEE

/-- Size of struct block_header: 4+4+8+4 bytes padded to the 16-byte
alignment gives 32. -/
def HDR_SIZE : Nat := 32

/-- The header fields of a heap block that the allocator reads or writes
(the next link is carried by the free-list representation). -/
structure BlockHeader where
  magic : Nat
  size : Nat
deriving DecidableEq, Repr

/-- Kernel heap globals: the header store (indexed by block address), the
free list as the chain of block addresses, the bump pointer, the heap end,
and a count of pr_err messages. -/
structure HeapState where
  blocks : Nat → BlockHeader
  free_list : List Nat
  heap_ptr : Nat
  heap_end : Nat
  err_count : Nat

/-- Pointwise update of a function-modelled store. -/
def fupd (f : Nat → α) (i : Nat) (v : α) : Nat → α :=
  fun j => if j = i then v else f j

/-- Round x up to a multiple of 16 the way kmalloc does:
(x + 15) computed in size_t, masked with the 64-bit complement of 15. -/
def align16 (x : Nat) : Nat :=
  (x + 15) &&& (2 ^ 64 - 16)

/-- Walk of the free list in kmalloc: find the first block whose size is at
least total, returning its address and the free list with it removed. -/
def freeListTake (blocks : Nat → BlockHeader) (total : Nat) :
    List Nat → Option Nat × List Nat
  | [] => (none, [])
  | b :: rest =>
    if (blocks b).size ≥ total then (some b, rest)
    else
      let r := freeListTake blocks total rest
      (r.1, b :: r.2)

/-- Embedding of kmalloc(size): returns the payload pointer (none models
NULL) and the updated heap state. -/
def kmalloc (st : HeapState) (size : Nat) : Option Nat × HeapState :=
  if size = 0 then (none, st)
  else
    let sz := align16 size
    let total := sz + HDR_SIZE
    match freeListTake st.blocks total st.free_list with
    | (some b, rest) =>
      (some (b + HDR_SIZE),
        { st with blocks := fupd st.blocks b { st.blocks b with magic := BLOCK_MAGIC },
                  free_list := rest })
    | (none, _) =>
      if st.heap_ptr + total > st.heap_end then
        (none, { st with err_count := st.err_count + 1 })
      else
        (some (st.heap_ptr + HDR_SIZE),
          { st with blocks := fupd st.blocks st.heap_ptr { magic := BLOCK_MAGIC, size := total },
                    heap_ptr := st.heap_ptr + total })

/-- Embedding of kfree(ptr): NULL is a no-op; a block whose magic word is
not BLOCK_MAGIC is rejected with a logged error; otherwise the magic word
is overwritten with the freed marker and the block is prepended to the
free list. -/
def kfree (st : HeapState) (ptr : Nat) : HeapState :=
  if ptr = 0 then st
  else
    let baddr := ptr - HDR_SIZE
    if (st.blocks baddr).magic ≠ BLOCK_MAGIC then
      { st with err_count := st.err_count + 1 }
    else
      { st with blocks := fupd st.blocks baddr { st.blocks baddr with magic := FREED_MAGIC },
                free_list := baddr :: st.free_list }

/-! ## VirtIO block driver request protocol (kernel/drivers/virtio/virtio_blk.c)

The bodies of virtio_blk_read and virtio_blk_write are straight-line code
(apart from the final busy-wait loop); they are embedded as the ordered
trace of the ring/MMIO operations each performs.  Each constructor records
the operation together with the values the source writes. -/

/-- One step performed by the synchronous block request functions.
setDescriptor carries the descriptor index, the device-writable flag
(VRING_DESC_F_WRITE) and the next-flag/next-index pair; availRingWrite is
the store of the head descriptor index into the available ring;
availIdxIncrement is the increment of the avail index; notifyQueue is the
store to the QueueNotify register; sampleUsedIdx is the read of the used
index into wait_idx; busyWaitUsedChange spins until the used index differs
from the sampled value; checkStatus inspects the one-byte status. -/
inductive BlkStep where
  | setDescriptor (i : Nat) (devWritable : Bool) (hasNext : Bool) (next : Nat)
  | availRingWrite (head : Nat)
  | memBarrier
  | availIdxIncrement
  | notifyQueue (queue : Nat)
  | sampleUsedIdx
  | busyWaitUsedChange
  | checkStatus
deriving DecidableEq, Repr

/-- The operation trace of virtio_blk_read, in source order: three
descriptors (header, data buffer marked device-writable, status byte
marked device-writable), the available-ring store of head index 0, a
barrier, the avail-index increment, a barrier, the notify write, then the
read of used->idx into wait_idx, the busy-wait until it changes, and the
status check. -/
def virtio_blk_read_trace : List BlkStep :=
  [ .setDescriptor 0 false true 1,
    .setDescriptor 1 true true 2,
    .setDescriptor 2 true false 0,
    .availRingWrite 0,
    .memBarrier,
    .availIdxIncrement,
    .memBarrier,
    .notifyQueue 0,
    .sampleUsedIdx,
    .busyWaitUsedChange,
    .checkStatus ]

/-- The operation trace of virtio_blk_write, in source order; it differs
from the read trace only in the data descriptor not being device-writable. -/
def virtio_blk_write_trace : List BlkStep :=
  [ .setDescriptor 0 false true 1,
    .setDescriptor 1 false true 2,
    .setDescriptor 2 true false 0,
    .availRingWrite 0,
    .memBarrier,
    .availIdxIncrement,
    .memBarrier,
    .notifyQueue 0,
    .sampleUsedIdx,
    .busyWaitUsedChange,
    .checkStatus ]

/-- Position of the first occurrence of a step in a trace. -/
def stepPos (tr : List BlkStep) (s : BlkStep) : Nat :=
  tr.findIdx (fun t => t = s)

/-- The claim that a trace samples used->idx before submission: before the
available-ring store, before the avail-index increment and before the
notify write, and busy-waits (then checks status) afterwards. -/
def samplesBeforeSubmission (tr : List BlkStep) : Prop :=
  stepPos tr .sampleUsedIdx < stepPos tr (.availRingWrite 0) ∧
  stepPos tr .sampleUsedIdx < stepPos tr .availIdxIncrement ∧
  stepPos tr .sampleUsedIdx < stepPos tr (.notifyQueue 0) ∧
  stepPos tr .sampleUsedIdx < stepPos tr .busyWaitUsedChange ∧
  stepPos tr .busyWaitUsedChange < stepPos tr .checkStatus

/-- What the source actually does: the sample of used->idx happens after
the notify write (hence after the whole submission) and before the
busy-wait and the status check. -/
def samplesAfterSubmission (tr : List BlkStep) : Prop :=
  stepPos tr (.availRingWrite 0) < stepPos tr .availIdxIncrement ∧
  stepPos tr .availIdxIncrement < stepPos tr (.notifyQueue 0) ∧
  stepPos tr (.notifyQueue 0) < stepPos tr .sampleUsedIdx ∧
  stepPos tr .sampleUsedIdx < stepPos tr .busyWaitUsedChange ∧
  stepPos tr .busyWaitUsedChange < stepPos tr .checkStatus

/-! ## Page-table entry flags (kernel/include/kernel/vmm.h) and the leaves
the kernel installs (kernel/mm/vmm.c, kernel/sched/elf.c) -/

/-- PTE flag bit 0 (valid). -/
def PTE_VALID : Nat := 1

/-- PTE flag bit 1 for level-3 page entries. -/
def PTE_PAGE : Nat := 2

/-- Memory-attribute index field at bits 3:2. -/
def PTE_ATTR_INDX (x : Nat) : Nat := x <<< 2

/-- Normal-memory MAIR index. -/
def PTE_ATTR_NORMAL : Nat := 0

/-- Device-memory MAIR index. -/
def PTE_ATTR_DEVICE : Nat := 1

/-- Access permission AP[2:1]=00: EL1 RW, EL0 none. -/
def PTE_RW : Nat := 0 <<< 6

/-- Access permission AP[2:1]=10: EL1 RO, EL0 none (bit 7). -/
def PTE_RO : Nat := 2 <<< 6

/-- Access permission AP[2:1]=01: EL1 RW, EL0 RW (bit 6). -/
def PTE_AP_EL0_RW : Nat := 1 <<< 6

/-- Access permission constant AP[2:1]=00 (alias of PTE_RW). -/
def PTE_AP_EL1_RW : Nat := 0 <<< 6

/-- Access permission AP[2:1]=10 (alias of PTE_RO). -/
def PTE_AP_EL1_RO : Nat := 2 <<< 6

/-- Inner-shareable attribute at bits 9:8. -/
def PTE_INNER_SHARE : Nat := 3 <<< 8

/-- Access flag, bit 10. -/
def PTE_AF : Nat := 1 <<< 10

/-- User execute-never, bit 54. -/
def PTE_UXN : Nat := 1 <<< 54

/-- Privileged execute-never, bit 53. -/
def PTE_PXN : Nat := 1 <<< 53

/-- PAGE_KERNEL from vmm.h: normal memory, EL1 RW, user execute-never. -/
def PAGE_KERNEL : Nat :=
  PTE_VALID ||| PTE_PAGE ||| PTE_ATTR_INDX PTE_ATTR_NORMAL ||| PTE_INNER_SHARE |||
    PTE_AF ||| PTE_AP_EL1_RW ||| PTE_UXN

/-- PAGE_KERNEL_RO from vmm.h. -/
def PAGE_KERNEL_RO : Nat :=
  PTE_VALID ||| PTE_PAGE ||| PTE_ATTR_INDX PTE_ATTR_NORMAL ||| PTE_INNER_SHARE |||
    PTE_AF ||| PTE_AP_EL1_RO ||| PTE_UXN

/-- PAGE_KERNEL_EXEC from vmm.h (defined but not installed by vmm_init). -/
def PAGE_KERNEL_EXEC : Nat :=
  PTE_VALID ||| PTE_PAGE ||| PTE_ATTR_INDX PTE_ATTR_NORMAL ||| PTE_INNER_SHARE |||
    PTE_AF ||| PTE_AP_EL1_RW

/-- PAGE_DEVICE from vmm.h: device memory, EL1 RW, both execute-never. -/
def PAGE_DEVICE : Nat :=
  PTE_VALID ||| PTE_PAGE ||| PTE_ATTR_INDX PTE_ATTR_DEVICE ||| PTE_INNER_SHARE |||
    PTE_AF ||| PTE_AP_EL1_RW ||| PTE_UXN ||| PTE_PXN

/-- PAGE_USER from vmm.h: normal memory, EL1 RW + EL0 RW (AP=01),
privileged execute-never only — no user execute-never bit. -/
def PAGE_USER : Nat :=
  PTE_VALID ||| PTE_PAGE ||| PTE_ATTR_INDX PTE_ATTR_NORMAL ||| PTE_INNER_SHARE |||
    PTE_AF ||| PTE_AP_EL0_RW ||| PTE_PXN

/-- Standard ELF program-header flag bit PF_X (executable).  The numeric
value comes from the ELF specification; the repository's kernel/elf.h
header (not among the provided sources) uses the standard encoding, as
fixed by the ELF external interface. -/
def PF_X : Nat := 1

/-- Standard ELF program-header flag bit PF_W (writable). -/
def PF_W : Nat := 2

/-- Leaf flags the ELF loader computes for a PT_LOAD segment with the
given p_flags (process_load_elf, kernel/sched/elf.c lines 45-57):
valid + access flag + inner shareable + PAGE_USER, PTE_RW for writable
segments else PTE_RO, and PTE_UXN only when the segment is not
executable. -/
def elf_segment_flags (p_flags : Nat) : Nat :=
  let base := PTE_VALID ||| PTE_AF ||| PTE_INNER_SHARE ||| PAGE_USER
  let base := if p_flags &&& PF_W ≠ 0 then base ||| PTE_RW else base ||| PTE_RO
  if p_flags &&& PF_X = 0 then base ||| PTE_UXN else base

/-- The leaf page-table entry flag words the kernel installs: PAGE_KERNEL
for the RAM identity map and PAGE_DEVICE for the MMIO aperture (vmm_init),
the segment flags computed by the ELF loader, and PAGE_USER for the user
stack pages (process_load_elf, stack setup). -/
inductive InstalledLeafFlags : Nat → Prop where
  | kernelRam : InstalledLeafFlags PAGE_KERNEL
  | kernelMmio : InstalledLeafFlags PAGE_DEVICE
  | elfSegment (p_flags : Nat) : InstalledLeafFlags (elf_segment_flags p_flags)
  | userStack : InstalledLeafFlags PAGE_USER

/-- A PTE flag word is valid when bit 0 is set. -/
def pteValid (f : Nat) : Bool := f.testBit 0

/-- A PTE flag word allows EL1 writes when AP[2] (bit 7) is clear
(AP[2:1] in 00 or 01 means EL1 read-write). -/
def pteEl1Writable (f : Nat) : Bool := !f.testBit 7

/-- A PTE flag word carries the user-execute-never bit when bit 54 is set. -/
def pteUserXN (f : Nat) : Bool := f.testBit 54

/-! ## Window compositor (kernel/graphics/compositor.c)

Window records mirror struct window; the pixel buffer is split into the
pointer returned by kmalloc (bufPtr, 0 for NULL) and the pixel store
bufMem indexed exactly as the source indexes it (buffer at py*width+px).
The C field named protected is called protectedFlag (Lean keyword).
Glyph painting (graphics_draw_char) belongs to the out-of-scope drawing
primitives; each call is recorded as a DrawEvent carrying the arguments
the source passes. -/

/-- Maximum number of windows (MAX_WINDOWS). -/
def MAX_WINDOWS : Nat := 16

/-- The fields of struct window. -/
structure CWindow where
  id : Int
  x : Int
  y : Int
  width : Int
  height : Int
  z_order : Int
  visible : Int
  pid : Int
  protectedFlag : Int
  bufPtr : Nat
  bufMem : Int → Nat
  bg_color : Nat
  title : List Nat
  cursor_x : Int
  cursor_y : Int
  fg_color : Nat
  escape_state : Int
  escape_buf : List Nat

/-- A zeroed window record (memset in compositor_init /
compositor_destroy_window). -/
def blankWin : CWindow :=
  { id := 0, x := 0, y := 0, width := 0, height := 0, z_order := 0, visible := 0,
    pid := 0, protectedFlag := 0, bufPtr := 0, bufMem := fun _ => 0, bg_color := 0,
    title := [], cursor_x := 0, cursor_y := 0, fg_color := 0, escape_state := 0,
    escape_buf := [] }

/-- Compositor globals: the window array, window_count, next_window_id,
the interrupt-enable state manipulated through local_irq_disable and
local_irq_enable, the kernel heap the pixel buffers come from, and a
count of pr_warn messages. -/
structure CompState where
  windows : List CWindow
  window_count : Int
  next_window_id : Int
  irq_on : Bool
  heap : HeapState
  warn_count : Nat

/-- Pointwise update of an Int-indexed pixel store. -/
def fupdI (f : Int → Nat) (i : Int) (v : Nat) : Int → Nat :=
  fun j => if j = i then v else f j

/-- The loop for(i = 0; i < n; i++) buffer(i) = color. -/
def bufFillN (buf : Int → Nat) (color : Nat) : Nat → (Int → Nat)
  | 0 => buf
  | k + 1 => fupdI (bufFillN buf color k) (k : Int) color

/-- The loop for(p = base; p < base + n; p++) buffer(p) = color. -/
def bufFillFrom (buf : Int → Nat) (base : Int) (color : Nat) : Nat → (Int → Nat)
  | 0 => buf
  | k + 1 => fupdI (bufFillFrom buf base color k) (base + k) color

/-- Inner loop of the rectangle fill in compositor_draw_rect: one row at
row py, columns x+dx for dx < the fuel, writing color at py*W+px for the
pixels inside the W-by-H window bounds. -/
def fillRow (buf : Int → Nat) (W H x py : Int) (color : Nat) : Nat → (Int → Nat)
  | 0 => buf
  | k + 1 =>
    let b := fillRow buf W H x py color k
    let px := x + (k : Int)
    if 0 ≤ px ∧ px < W ∧ 0 ≤ py ∧ py < H then fupdI b (py * W + px) color else b

/-- Outer loop of the rectangle fill: rows y+dy for dy < the fuel. -/
def fillRectAux (buf : Int → Nat) (W H x y : Int) (w : Nat) (color : Nat) :
    Nat → (Int → Nat)
  | 0 => buf
  | k + 1 => fillRow (fillRectAux buf W H x y w color k) W H x (y + (k : Int)) color w

/-- The clipped rectangle fill of compositor_draw_rect (lines 723-732):
for dy < h, dx < w write color at (x+dx, y+dy) when inside the window. -/
def fillRect (buf : Int → Nat) (W H x y w h : Int) (color : Nat) : Int → Nat :=
  fillRectAux buf W H x y w.toNat color h.toNat

/-- The window-array scan of compositor_draw_rect: find the first window
with matching id and a non-NULL buffer; refuse with a pr_warn (second
component true) when the caller is neither the owner nor pid 1, else fill.
The scan mirrors the source loop over windows[0..MAX_WINDOWS). -/
def drawRectScan (wid x y w h : Int) (color : Nat) (caller : Int) :
    List CWindow → List CWindow × Bool
  | [] => ([], false)
  | win :: rest =>
    if win.id = wid ∧ win.bufPtr ≠ 0 then
      if win.pid ≠ caller ∧ caller ≠ 1 then (win :: rest, true)
      else
        ({ win with bufMem := fillRect win.bufMem win.width win.height x y w h color } :: rest,
          false)
    else
      let r := drawRectScan wid x y w h color caller rest
      (win :: r.1, r.2)

/-- Embedding of compositor_draw_rect(window_id, x, y, w, h, color,
caller_pid): interrupts are masked on entry and re-enabled on every
return path of this function. -/
def compositor_draw_rect (st : CompState) (wid x y w h : Int) (color : Nat)
    (caller : Int) : CompState :=
  let r := drawRectScan wid x y w h color caller st.windows
  { st with windows := r.1, warn_count := st.warn_count + (if r.2 then 1 else 0),
            irq_on := true }

/-- The free-slot search in compositor_create_window: first index whose
window id is 0. -/
def findFreeSlot : List CWindow → Option Nat
  | [] => none
  | w :: rest => if w.id = 0 then some 0 else (findFreeSlot rest).map (· + 1)

/-- Embedding of compositor_create_window(x, y, w, h, title, pid).
Interrupts are disabled on entry; the source re-enables them on the
table-full path and on success, but returns with them still masked on the
no-free-slot path (line 90) and on the buffer-allocation-failure path
(line 97). -/
def compositor_create_window (st : CompState) (x y w h : Int) (title : List Nat)
    (pid : Int) : CompState × Int :=
  let st := { st with irq_on := false }
  if st.window_count ≥ (MAX_WINDOWS : Int) then ({ st with irq_on := true }, -1)
  else
    match findFreeSlot st.windows with
    | none => (st, -1)
    | some slot =>
      let buffer_size := (w * h * 4).toNat
      match kmalloc st.heap buffer_size with
      | (none, heap1) => ({ st with heap := heap1 }, -1)
      | (some bufp, heap1) =>
        let n := (w * h).toNat
        let mem := bufFillN (bufFillN (fun _ => 0) 0xFF17171A n) 0xFF17171A n
        let win : CWindow :=
          { id := st.next_window_id, x := x, y := y, width := w, height := h,
            z_order := st.window_count, visible := 1, pid := pid,
            protectedFlag := if pid = 2 then 1 else 0,
            bufPtr := bufp, bufMem := mem, bg_color := 0xFF17171A,
            title := title.take 63, cursor_x := 0, cursor_y := 0,
            fg_color := 0xFFFFFFFF, escape_state := 0, escape_buf := [] }
        ({ st with windows := st.windows.set slot win,
                   window_count := st.window_count + 1,
                   next_window_id := st.next_window_id + 1,
                   heap := heap1, irq_on := true },
          win.id)

/-- Embedding of compositor_get_window_by_pid: the id of the first live
window owned by pid, or -1. -/
def getWindowByPid (pid : Int) : List CWindow → Int
  | [] => -1
  | w :: rest => if w.id ≠ 0 ∧ w.pid = pid then w.id else getWindowByPid pid rest

/-! ### Window terminal emulator (compositor_window_write, handle_sgr) -/

/-- A call to the out-of-scope glyph renderer graphics_draw_char with the
pixel position, the character code and the colour the source passes. -/
inductive DrawEvent where
  | drawChar (x y : Int) (c : Nat) (color : Nat)
deriving DecidableEq, Repr

/-- The basic SGR palette (handle_sgr, values 30-37). -/
def sgrBasic (i : Nat) : Nat :=
  List.getD [0xFF000000, 0xFFBB0000, 0xFF00BB00, 0xFFBBBB00,
    0xFF0000BB, 0xFFBB00BB, 0xFF00BBBB, 0xFFBBBBBB] i 0

/-- The bright SGR palette (handle_sgr, values 90-97). -/
def sgrBright (i : Nat) : Nat :=
  List.getD [0xFF555555, 0xFFFF5555, 0xFF55FF55, 0xFFFFFF55,
    0xFF5555FF, 0xFFFF55FF, 0xFF55FFFF, 0xFFFFFFFF] i 0

/-- The decimal fold of the digit bytes of the SGR parameter buffer
(handle_sgr, lines 343-348). -/
def sgrVal (buf : List Nat) : Nat :=
  buf.foldl (fun v c => if 48 ≤ c ∧ c ≤ 57 then v * 10 + (c - 48) else v) 0

/-- Embedding of handle_sgr: with no accumulated parameter bytes reset the
foreground to white; otherwise fold the decimal digits of the parameter
buffer into one value and select the palette colour (0 resets to white;
values outside the palettes leave the colour unchanged).  Note the
parameter buffer is left as it is. -/
def handle_sgr (win : CWindow) : CWindow :=
  if win.escape_buf = [] then { win with fg_color := 0xFFFFFFFF }
  else
    let val := sgrVal win.escape_buf
    if val = 0 then { win with fg_color := 0xFFFFFFFF }
    else if 30 ≤ val ∧ val ≤ 37 then { win with fg_color := sgrBasic (val - 30) }
    else if 90 ≤ val ∧ val ≤ 97 then { win with fg_color := sgrBright (val - 90) }
    else win

/-- The escape-state machine step of the byte loop of
compositor_window_write (lines 397-444): state 0 handles ESC, newline,
carriage return, backspace/DEL and printable bytes (background cell clear
through the clipped rectangle fill — the ownership check passes since the
caller is the window's owner — followed by the recorded graphics_draw_char
call); state 1 looks for the CSI bracket; state 2 accumulates non-letter
bytes into the bounded parameter buffer and dispatches on a letter. -/
def windowEscStep (win : CWindow) (c : Nat) : CWindow × List DrawEvent :=
  if win.escape_state = 0 then
    if c = 27 then ({ win with escape_state := 1, escape_buf := [] }, [])
    else if c = 10 then ({ win with cursor_x := 0, cursor_y := win.cursor_y + 1 }, [])
    else if c = 13 then ({ win with cursor_x := 0 }, [])
    else if c = 8 ∨ c = 127 then
      (if win.cursor_x > 0 then { win with cursor_x := win.cursor_x - 1 } else win, [])
    else if 32 ≤ c ∧ c < 127 then
      let bm := fillRect win.bufMem win.width win.height
        (win.cursor_x * 8) (win.cursor_y * 16) 8 16 win.bg_color
      ({ win with bufMem := bm, cursor_x := win.cursor_x + 1 },
        [.drawChar (win.cursor_x * 8) (win.cursor_y * 16) c win.fg_color])
    else (win, [])
  else if win.escape_state = 1 then
    if c = 91 then ({ win with escape_state := 2 }, [])
    else ({ win with escape_state := 0 }, [])
  else if win.escape_state = 2 then
    if (97 ≤ c ∧ c ≤ 122) ∨ (65 ≤ c ∧ c ≤ 90) then
      let win1 :=
        if c = 109 then handle_sgr win
        else if c = 74 then
          { win with bufMem := bufFillN win.bufMem win.bg_color (win.width * win.height).toNat,
                     cursor_x := 0, cursor_y := 0 }
        else if c = 72 then { win with cursor_x := 0, cursor_y := 0 }
        else win
      ({ win1 with escape_state := 0 }, [])
    else if win.escape_buf.length < 31 then
      ({ win with escape_buf := win.escape_buf ++ [c] }, [])
    else ({ win with escape_state := 0 }, [])
  else (win, [])

/-- The column-wrap and scroll checks at the end of each iteration of the
byte loop (lines 446-461): wrap the cursor past the last column, and when
the cursor passes the last row, shift the pixel rows up by one character
line, clear the freed last line to the background colour and pin the
cursor to the last row. -/
def windowWrapScroll (cols rows : Int) (w1 : CWindow) : CWindow :=
  let w2 := if w1.cursor_x ≥ cols then { w1 with cursor_x := 0, cursor_y := w1.cursor_y + 1 }
            else w1
  if w2.cursor_y ≥ rows then
    { w2 with
      bufMem := bufFillFrom
        (fun i => if 0 ≤ i ∧ i < w2.width * (w2.height - 16) then w2.bufMem (i + w2.width * 16)
                  else w2.bufMem i)
        (w2.width * (w2.height - 16)) w2.bg_color
        (w2.width * w2.height - w2.width * (w2.height - 16)).toNat,
      cursor_y := rows - 1 }
  else w2

/-- One iteration of the byte loop of compositor_window_write (lines
394-461): the escape-state machine step followed by the wrap and scroll
checks (cols and rows are computed once from the window extent, as in the
source). -/
def windowWriteChar (win : CWindow) (c : Nat) : CWindow × List DrawEvent :=
  let cols := win.width.tdiv 8
  let rows := win.height.tdiv 16
  let step := windowEscStep win c
  (windowWrapScroll cols rows step.1, step.2)

/-- The byte loop of compositor_window_write over a whole buffer. -/
def windowWriteBytes (win : CWindow) : List Nat → CWindow × List DrawEvent
  | [] => (win, [])
  | c :: cs =>
    let r1 := windowWriteChar win c
    let r2 := windowWriteBytes r1.1 cs
    (r2.1, r1.2 ++ r2.2)

/-! ### Write syscall routing (sys_write, kernel/arch/aarch64/cpu/syscall.c) -/

/-- Destination of the bytes of one sys_write call: the window found for
the caller, or the UART console fallback. -/
inductive WriteDest where
  | window (id : Int)
  | console
deriving DecidableEq, Repr

/-- Embedding of sys_write(fd, buf, count): for fd 1 or 2 look up the
caller's window (pid 0 when current_process is NULL) and route the bytes
there when one exists; in every other case write each byte to the console;
the return value is count in all cases. -/
def sys_write (ws : List CWindow) (current : Option Int) (fd : Int) (count : Nat) :
    Nat × WriteDest :=
  if fd = 1 ∨ fd = 2 then
    let pid := current.getD 0
    let win_id := getWindowByPid pid ws
    if win_id ≥ 0 then (count, .window win_id) else (count, .console)
  else (count, .console)

/-! ## Physical page allocator (kernel/mm/pmm.c)

Zone bitmaps are zone-relative Boolean stores (bit set = frame in use);
the per-page descriptors are indexed by absolute page frame number.
Addresses are physical byte addresses as the source computes them
(MEMORY_BASE + pfn * PAGE_SIZE). -/

/-- PAGE_SIZE (4 KiB). -/
def PAGE_SIZE : Nat := 4096

/-- DRAM base of the QEMU virt machine (MEMORY_BASE). -/
def MEMORY_BASE : Nat := 0x40000000

/-- Page flag PG_RESERVED. -/
def PG_RESERVED : Nat := 1

/-- Page flag PG_KERNEL. -/
def PG_KERNEL : Nat := 2

/-- Frame descriptor fields used by the allocator (struct page). -/
structure CPage where
  flags : Nat
  refcount : Nat
deriving DecidableEq, Repr

/-- Zone descriptor: first and one-past-last absolute pfn, zone-relative
bitmap, and the free-page counter. -/
structure CZone where
  start_pfn : Nat
  end_pfn : Nat
  bitmap : Nat → Bool
  free_pages : Nat

/-- Allocator globals: the two zones, the page-descriptor array and the
global statistics. -/
structure PMMState where
  dma : CZone
  normal : CZone
  pages : Nat → CPage
  free_pages : Nat
  total_pages : Nat

/-- bitmap_find_free scan from index i with the given fuel (the caller
passes end - start): first clear bit. -/
def findFreeFrom (bm : Nat → Bool) (i : Nat) : Nat → Option Nat
  | 0 => none
  | fuel + 1 => if bm i then findFreeFrom bm (i + 1) fuel else some i

/-- Embedding of bitmap_find_free(bitmap, start, end). -/
def bitmap_find_free (bm : Nat → Bool) (start e : Nat) : Option Nat :=
  findFreeFrom bm start (e - start)

/-- bitmap_find_contiguous scan: i is the next index, found the current
run length, first the start of the current run; restart on every set
bit. -/
def findContigFrom (bm : Nat → Bool) (count i found first : Nat) : Nat → Option Nat
  | 0 => none
  | fuel + 1 =>
    if bm i then findContigFrom bm count (i + 1) 0 first fuel
    else
      let first1 := if found = 0 then i else first
      if found + 1 = count then some first1
      else findContigFrom bm count (i + 1) (found + 1) first1 fuel

/-- Embedding of bitmap_find_contiguous(bitmap, start, end, count). -/
def bitmap_find_contiguous (bm : Nat → Bool) (start e count : Nat) : Option Nat :=
  findContigFrom bm count start 0 0 (e - start)

/-- Pointwise update of a bitmap. -/
def bupd (f : Nat → Bool) (i : Nat) (v : Bool) : Nat → Bool :=
  fun j => if j = i then v else f j

/-- The loop marking count bits from bit pfn (pmm_alloc_pages lines
297-299). -/
def setBitsFrom (bm : Nat → Bool) (pfn : Nat) : Nat → (Nat → Bool)
  | 0 => bm
  | k + 1 => bupd (setBitsFrom bm pfn k) (pfn + k) true

/-- The loop initializing count page descriptors from absolute pfn
(flags 0, refcount 1). -/
def initPagesFrom (pg : Nat → CPage) (pfn : Nat) : Nat → (Nat → CPage)
  | 0 => pg
  | k + 1 => fupd (initPagesFrom pg pfn k) (pfn + k) { flags := 0, refcount := 1 }

/-- Embedding of zone_alloc_page: first-fit scan of one zone's bitmap;
on success mark the bit, set the descriptor to flags 0 / refcount 1, and
return the physical address MEMORY_BASE + abs_pfn * PAGE_SIZE together
with the updated zone and descriptor store. -/
def zone_alloc_page (z : CZone) (pg : Nat → CPage) :
    Option (Nat × CZone × (Nat → CPage)) :=
  match bitmap_find_free z.bitmap 0 (z.end_pfn - z.start_pfn) with
  | none => none
  | some pfn =>
    let z1 := { z with bitmap := bupd z.bitmap pfn true, free_pages := z.free_pages - 1 }
    let abs_pfn := z.start_pfn + pfn
    let pg1 := fupd pg abs_pfn { flags := 0, refcount := 1 }
    some (MEMORY_BASE + abs_pfn * PAGE_SIZE, z1, pg1)

/-- Embedding of pmm_alloc_page: the normal zone first, the DMA zone as
fallback. -/
def pmm_alloc_page (st : PMMState) : Option Nat × PMMState :=
  match zone_alloc_page st.normal st.pages with
  | some (addr, z1, pg1) =>
    (some addr, { st with normal := z1, pages := pg1, free_pages := st.free_pages - 1 })
  | none =>
    match zone_alloc_page st.dma st.pages with
    | some (addr, z1, pg1) =>
      (some addr, { st with dma := z1, pages := pg1, free_pages := st.free_pages - 1 })
    | none => (none, st)

/-- Embedding of pmm_alloc_pages(count): 0 fails, 1 defers to
pmm_alloc_page, otherwise a contiguous first-fit run is searched in the
normal zone only. -/
def pmm_alloc_pages (st : PMMState) (count : Nat) : Option Nat × PMMState :=
  if count = 0 then (none, st)
  else if count = 1 then pmm_alloc_page st
  else
    let z := st.normal
    match bitmap_find_contiguous z.bitmap 0 (z.end_pfn - z.start_pfn) count with
    | none => (none, st)
    | some pfn =>
      let z1 := { z with bitmap := setBitsFrom z.bitmap pfn count,
                         free_pages := z.free_pages - count }
      let abs_pfn := z.start_pfn + pfn
      let pg1 := initPagesFrom st.pages abs_pfn count
      (some (MEMORY_BASE + abs_pfn * PAGE_SIZE),
        { st with normal := z1, pages := pg1, free_pages := st.free_pages - count })

/-- Embedding of pmm_free_page(page): NULL and sub-RAM addresses are
ignored, as are out-of-range pfns and reserved frames; the refcount is
decremented (with the uint32 wrap of the source's --refcount), and on
reaching zero the zone-relative bit is cleared in the owning zone. -/
def pmm_free_page (st : PMMState) (addr : Nat) : PMMState :=
  if addr = 0 then st
  else if addr < MEMORY_BASE then st
  else
    let pfn := (addr - MEMORY_BASE) / PAGE_SIZE
    if pfn ≥ st.total_pages then st
    else
      let p := st.pages pfn
      if p.flags &&& PG_RESERVED ≠ 0 then st
      else
        let rc := (p.refcount + (2 ^ 32 - 1)) % 2 ^ 32
        let st1 := { st with pages := fupd st.pages pfn { p with refcount := rc } }
        if rc > 0 then st1
        else if pfn < st.dma.end_pfn then
          { st1 with dma := { st1.dma with bitmap := bupd st1.dma.bitmap pfn false,
                                           free_pages := st1.dma.free_pages + 1 },
                     free_pages := st1.free_pages + 1 }
        else
          let zone_pfn := pfn - st.dma.end_pfn
          { st1 with normal := { st1.normal with
                                   bitmap := bupd st1.normal.bitmap zone_pfn false,
                                   free_pages := st1.normal.free_pages + 1 },
                     free_pages := st1.free_pages + 1 }

/-- Embedding of pmm_free_pages(page, count): free each page of the run
in ascending order. -/
def pmm_free_pages (st : PMMState) (addr : Nat) : Nat → PMMState
  | 0 => st
  | k + 1 => pmm_free_pages (pmm_free_page st addr) (addr + PAGE_SIZE) k

/-- The alignment mask (addr + align - 1) & ~(align - 1) of
pmm_alloc_aligned, with the 64-bit complement written out. -/
def alignUp64 (addr align : Nat) : Nat :=
  (addr + align - 1) &&& (2 ^ 64 - align)

/-- The over-allocation branch of pmm_alloc_aligned: allocate
pages + align_pages - 1 frames, then free the misaligned head run and the
unused tail run so that exactly the requested pages remain at the aligned
address. -/
def pmm_alloc_aligned_over (st : PMMState) (pages align_pages align : Nat) :
    Option Nat × PMMState :=
  let total := pages + align_pages - 1
  let r := pmm_alloc_pages st total
  match r.1 with
  | none => (none, r.2)
  | some addr =>
    let st1 := r.2
    let aligned := alignUp64 addr align
    let skip := (aligned - addr) / PAGE_SIZE
    let st2 := if skip > 0 then pmm_free_pages st1 addr skip else st1
    let unused := total - skip - pages
    let st3 := if unused > 0 then pmm_free_pages st2 (aligned + pages * PAGE_SIZE) unused
               else st2
    (some aligned, st3)

/-- Embedding of pmm_alloc_aligned(size, align): for alignments within one
page just allocate; otherwise over-allocate and trim head and tail. -/
def pmm_alloc_aligned (st : PMMState) (size align : Nat) : Option Nat × PMMState :=
  let pages := (size + PAGE_SIZE - 1) / PAGE_SIZE
  let align_pages := (align + PAGE_SIZE - 1) / PAGE_SIZE
  if align_pages ≤ 1 then pmm_alloc_pages st pages
  else pmm_alloc_aligned_over st pages align_pages align

/-- The frame-in-use predicate at an absolute pfn, reading the owning
zone's bitmap the way pmm_free_page selects zones; meaningful for states
whose zones partition the pfn space at dma.end_pfn. -/
def usedPfn (st : PMMState) (pfn : Nat) : Bool :=
  if pfn < st.dma.end_pfn then st.dma.bitmap pfn
  else st.normal.bitmap (pfn - st.dma.end_pfn)

/-- Zone geometry produced by pmm_init: the DMA zone starts at pfn 0, the
normal zone starts where the DMA zone ends and ends at total_pages, and
the pfn space is bounded by the 1 GiB maximum (2^18 frames). -/
def pmmWF (st : PMMState) : Prop :=
  st.dma.start_pfn = 0 ∧ st.normal.start_pfn = st.dma.end_pfn ∧
    st.normal.end_pfn = st.total_pages ∧ st.total_pages ≤ 2 ^ 18 ∧
    st.dma.end_pfn ≤ st.total_pages

/-! ## Concrete states used by witnesses and counterexamples -/

/-- modifyAt preserves the list length. -/
theorem modifyAt_length (l : List α) (i : Nat) (f : α → α) :
    (modifyAt l i f).length = l.length := by
  induction l generalizing i with
  | nil => rfl
  | cons a as ih =>
    cases i with
    | zero => rfl
    | succ n => simp [modifyAt, ih]

/-- Reading the modified index of modifyAt. -/
theorem getD_modifyAt (l : List α) (i : Nat) (f : α → α) (d : α) (h : i < l.length) :
    (modifyAt l i f).getD i d = f (l.getD i d) := by
  induction l generalizing i with
  | nil => simp at h
  | cons a as ih =>
    cases i with
    | zero => rfl
    | succ n => simpa [modifyAt] using ih n (by simpa using h)

/-- The scheduler never changes the number of populated processes. -/
theorem schedule_pool_length (st : SchedState) (r : Nat) :
    (schedule st r).1.pool.length = st.pool.length := by
  unfold schedule
  split
  · rfl
  · cases hc : st.current <;> simp [hc, modifyAt_length]

/-- The new current index after one tick: the old one advanced by one,
truncated-modulo the populated count. -/
theorem schedule_current_pid (st : SchedState) (r : Nat) (h : st.pool.length ≠ 0) :
    (schedule st r).1.current_pid = (st.current_pid + 1).tmod (st.pool.length : Int) := by
  unfold schedule
  rw [if_neg h]
  cases hc : st.current <;> simp [hc, modifyAt_length]

/-- Iterating the scheduler preserves the populated count. -/
theorem scheduleTicks_pool_length (st : SchedState) (n : Nat) :
    (scheduleTicks st n).pool.length = st.pool.length := by
  induction n with
  | zero => rfl
  | succ n ih => rw [scheduleTicks, schedule_pool_length, ih]

/-- Closed form of the current index after t+1 ticks. -/
theorem tick_pid_formula (st : SchedState) (hN : st.pool.length ≠ 0)
    (hc : -1 ≤ st.current_pid) (t : Nat) :
    (scheduleTicks st (t + 1)).current_pid =
      ((((st.current_pid + 1).toNat + t) % st.pool.length : Nat) : Int) := by
  induction t with
  | zero =>
    show (schedule (scheduleTicks st 0) 0).1.current_pid = _
    rw [show scheduleTicks st 0 = st from rfl, schedule_current_pid st 0 hN]
    rw [show st.current_pid + 1 = ((st.current_pid + 1).toNat : Int) from
      (Int.toNat_of_nonneg (by omega)).symm]
    rw [← Int.ofNat_tmod]
    simp
  | succ t ih =>
    show (schedule (scheduleTicks st (t + 1)) 0).1.current_pid = _
    have hlen := scheduleTicks_pool_length st (t + 1)
    rw [schedule_current_pid _ 0 (by rw [hlen]; exact hN), ih, hlen]
    have h1 : ((((st.current_pid + 1).toNat + t) % st.pool.length : Nat) : Int) + 1 =
        (((((st.current_pid + 1).toNat + t) % st.pool.length) + 1 : Nat) : Int) := by
      push_cast; ring
    rw [h1, ← Int.ofNat_tmod]
    congr 1
    rw [Nat.mod_add_mod, Nat.add_assoc]

/-- For t in a residue block, a + t hits residue i at exactly one t. -/
theorem mod_shift_unique (N a i : Nat) (hN : 0 < N) (hi : i < N) (t : Nat) (ht : t < N) :
    (a + t) % N = i ↔ t = (i + (N - a % N)) % N := by
  have hr : a % N < N := Nat.mod_lt _ hN
  have hmod : (a + t) % N = (a % N + t) % N := by
    conv_lhs => rw [Nat.add_mod, Nat.mod_eq_of_lt ht]
  have hA : a % N ≤ i → (i + (N - a % N)) % N = i - a % N := by
    intro hri
    rw [show i + (N - a % N) = (i - a % N) + N by omega, Nat.add_mod_right,
      Nat.mod_eq_of_lt (by omega)]
  have hB : i < a % N → (i + (N - a % N)) % N = i + (N - a % N) := by
    intro hir
    exact Nat.mod_eq_of_lt (by omega)
  constructor
  · intro he
    by_cases hlt : a % N + t < N
    · have h1 : a % N + t = i := by rw [hmod, Nat.mod_eq_of_lt hlt] at he; exact he
      have h2 := hA (by omega)
      omega
    · have h1 : (a % N + t) % N = a % N + t - N := by
        rw [Nat.mod_eq_sub_mod (by omega), Nat.mod_eq_of_lt (by omega)]
      have h2 : a % N + t - N = i := by rw [hmod, h1] at he; exact he
      have h3 := hB (by omega)
      omega
  · intro heq
    subst heq
    by_cases hri : a % N ≤ i
    · rw [hmod, hA hri, show a % N + (i - a % N) = i by omega, Nat.mod_eq_of_lt hi]
    · rw [hmod, hB (by omega), show a % N + (i + (N - a % N)) = i + N by omega,
        Nat.add_mod_right, Nat.mod_eq_of_lt hi]

/-- One residue block of length N contains exactly one tick selecting i. -/
theorem residue_block_count (N a i lo : Nat) (hN : 0 < N) (hi : i < N) :
    ((Finset.Ico lo (lo + N)).filter (fun t => (a + t) % N = i)).card = 1 := by
  have hkey := mod_shift_unique N (a + lo) i hN hi
  have : (Finset.Ico lo (lo + N)).filter (fun t => (a + t) % N = i) =
      {lo + (i + (N - (a + lo) % N)) % N} := by
    ext t
    simp only [Finset.mem_filter, Finset.mem_Ico, Finset.mem_singleton]
    constructor
    · rintro ⟨⟨hlo, hhi⟩, he⟩
      have hs : t - lo < N := by omega
      have : (a + lo + (t - lo)) % N = i := by
        rw [show a + lo + (t - lo) = a + t by omega]; exact he
      have := (hkey (t - lo) hs).1 this
      omega
    · rintro rfl
      have ht0 : (i + (N - (a + lo) % N)) % N < N := Nat.mod_lt _ hN
      refine ⟨⟨by omega, by omega⟩, ?_⟩
      have := (hkey _ ht0).2 rfl
      rw [show a + (lo + (i + (N - (a + lo) % N)) % N) =
        a + lo + (i + (N - (a + lo) % N)) % N by omega]
      exact this
  rw [this, Finset.card_singleton]

/-- Over a window of N*k ticks, residue i is hit exactly k times. -/
theorem residue_window_count (N a i k : Nat) (hN : 0 < N) (hi : i < N) :
    ((Finset.range (N * k)).filter (fun t => (a + t) % N = i)).card = k := by
  induction k with
  | zero => simp
  | succ k ih =>
    have hsplit : Finset.range (N * (k + 1)) =
        Finset.range (N * k) ∪ Finset.Ico (N * k) (N * k + N) := by
      rw [Finset.range_eq_Ico,
        Finset.Ico_union_Ico_eq_Ico (Nat.zero_le _) (Nat.le_add_right _ _)]
      congr 1
    rw [hsplit, Finset.filter_union,
      Finset.card_union_of_disjoint
        (Finset.disjoint_filter_filter
          (by rw [Finset.range_eq_Ico]; exact Finset.Ico_disjoint_Ico_consecutive 0 (N * k) (N * k + N))),
      ih, residue_block_count N a i (N * k) hN hi]

/-! ## Claim theorems -/

/-- C1: schedule advances the current index by one modulo the populated
count on every tick, and over any window of N*k consecutive ticks from a
state with N populated processes (the pool fixed, i.e. no creation or
exit), each pool index i is selected exactly k times. -/
theorem schedule_round_robin (st : SchedState) (k i : Nat)
    (hN : 0 < st.pool.length) (hc : -1 ≤ st.current_pid) (hi : i < st.pool.length) :
    (∀ regs, (schedule st regs).1.current_pid =
        (st.current_pid + 1).tmod (st.pool.length : Int)) ∧
    selectedCount st (st.pool.length * k) (i : Int) = k := by
  refine ⟨fun regs => schedule_current_pid st regs (by omega), ?_⟩
  unfold selectedCount
  have hfe : ∀ t ∈ Finset.range (st.pool.length * k),
      ((scheduleTicks st (t + 1)).current_pid = (i : Int)) ↔
        ((((st.current_pid + 1).toNat + t) % st.pool.length) = i) := by
    intro t _
    rw [tick_pid_formula st (by omega) hc t]
    exact_mod_cast Iff.rfl
  rw [Finset.filter_congr hfe]
  exact residue_window_count _ _ _ _ hN hi

/-- Concrete scheduler state for the C1 witness: three populated
processes, current_pid still -1 (nothing started). -/
def stC1 : SchedState :=
  { pool := [⟨1, 5, 2, 100⟩, ⟨2, 6, 2, 200⟩, ⟨3, 7, 2, 300⟩],
    current_pid := -1, current := none, ttbr := 0 }

/-- Witness for C1: at three processes and k = 2, pool index 1 is selected
exactly twice over 6 ticks. -/
theorem schedule_round_robin_witness :
    (0 < stC1.pool.length ∧ -1 ≤ stC1.current_pid ∧ 1 < stC1.pool.length) ∧
    ((∀ regs, (schedule stC1 regs).1.current_pid =
        (stC1.current_pid + 1).tmod (stC1.pool.length : Int)) ∧
      selectedCount stC1 (stC1.pool.length * 2) ((1 : Nat) : Int) = 2) :=
  ⟨⟨by decide, by decide, by decide⟩,
    schedule_round_robin stC1 2 1 (by decide) (by decide) (by decide)⟩

/-- Concrete scheduler state for the C6 counterexample: two populated
processes, process 0 current. -/
def stC6 : SchedState :=
  { pool := [⟨1, 11, 2, 100⟩, ⟨2, 22, 2, 200⟩],
    current_pid := 0, current := some 0, ttbr := 100 }

/-- C6 counterexample: the claim says schedule sets the outgoing process's
state to runnable (and explicitly not running); at this concrete input the
code stores the saved frame pointer but sets the state word to
PROC_RUNNING (value 2) — the process remains marked running, and sched.h
defines no separate runnable state at all. -/
theorem schedule_counterexample_state_running :
    ((schedule stC6 99).1.pool.getD 0 procDflt).context = 99 ∧
    ((schedule stC6 99).1.pool.getD 0 procDflt).state = PROC_RUNNING ∧
    PROC_RUNNING = 2 := by decide

/-- C6 amended: as its first step, schedule stores current_frame into the
current process's saved-frame pointer and sets its state word to
PROC_RUNNING (the code has no runnable constant; the slot stays marked
running) before advancing the index by one modulo the populated count. -/
theorem schedule_saves_frame_and_sets_running (st : SchedState) (regs : Nat) (i : Nat)
    (hcur : st.current = some i) (hi : i < st.pool.length) :
    ((schedule st regs).1.pool.getD i procDflt).context = regs ∧
    ((schedule st regs).1.pool.getD i procDflt).state = PROC_RUNNING ∧
    (schedule st regs).1.current_pid = (st.current_pid + 1).tmod (st.pool.length : Int) := by
  have hN : st.pool.length ≠ 0 := by omega
  have key : (schedule st regs).1.pool =
      modifyAt st.pool i (fun p => { p with context := regs, state := PROC_RUNNING }) := by
    simp only [schedule]
    rw [if_neg hN, hcur]
  refine ⟨?_, ?_, schedule_current_pid st regs hN⟩ <;>
    rw [key, getD_modifyAt _ _ _ _ hi]

/-- Witness for the amended C6 theorem at the concrete state stC6. -/
theorem schedule_saves_frame_witness :
    (stC6.current = some 0 ∧ 0 < stC6.pool.length) ∧
    (((schedule stC6 99).1.pool.getD 0 procDflt).context = 99 ∧
      ((schedule stC6 99).1.pool.getD 0 procDflt).state = PROC_RUNNING ∧
      (schedule stC6 99).1.current_pid = (stC6.current_pid + 1).tmod (stC6.pool.length : Int)) :=
  ⟨⟨rfl, by decide⟩, schedule_saves_frame_and_sets_running stC6 99 0 rfl (by decide)⟩

/-- C10: double kfree is a logged no-op.  The first kfree of a valid block
overwrites the magic word with the freed marker and prepends the block to
the free list; the second kfree of the same pointer fails the magic-word
check, bumps the error log, and leaves the header store and the free list
exactly as they were. -/
theorem kfree_double_free_noop (st : HeapState) (ptr : Nat)
    (hptr : ptr ≠ 0) (hm : (st.blocks (ptr - HDR_SIZE)).magic = BLOCK_MAGIC) :
    ((kfree st ptr).blocks (ptr - HDR_SIZE)).magic = FREED_MAGIC ∧
    (kfree st ptr).free_list = (ptr - HDR_SIZE) :: st.free_list ∧
    (kfree (kfree st ptr) ptr).blocks = (kfree st ptr).blocks ∧
    (kfree (kfree st ptr) ptr).free_list = (kfree st ptr).free_list ∧
    (kfree (kfree st ptr) ptr).err_count = (kfree st ptr).err_count + 1 := by
  have hcond : ¬(st.blocks (ptr - HDR_SIZE)).magic ≠ BLOCK_MAGIC := not_not_intro hm
  have e1 : kfree st ptr =
      { st with blocks := fupd st.blocks (ptr - HDR_SIZE)
                  { st.blocks (ptr - HDR_SIZE) with magic := FREED_MAGIC },
                free_list := (ptr - HDR_SIZE) :: st.free_list } := by
    unfold kfree
    rw [if_neg hptr, if_neg hcond]
  have e2 : ((kfree st ptr).blocks (ptr - HDR_SIZE)).magic = FREED_MAGIC := by
    rw [e1]; simp [fupd]
  have hcond2 : ((kfree st ptr).blocks (ptr - HDR_SIZE)).magic ≠ BLOCK_MAGIC := by
    rw [e2]; decide
  have e3gen : ∀ s : HeapState, (s.blocks (ptr - HDR_SIZE)).magic ≠ BLOCK_MAGIC →
      kfree s ptr = { s with err_count := s.err_count + 1 } := by
    intro s hs
    unfold kfree
    rw [if_neg hptr, if_pos hs]
  have e3 := e3gen (kfree st ptr) hcond2
  refine ⟨e2, ?_, ?_, ?_, ?_⟩
  · rw [e1]
  · rw [e3]
  · rw [e3]
  · rw [e3]

/-- Concrete heap for the C10 witness: every header carries BLOCK_MAGIC,
empty free list. -/
def heapC10 : HeapState :=
  { blocks := fun _ => ⟨BLOCK_MAGIC, 64⟩, free_list := [], heap_ptr := 4096,
    heap_end := 8192, err_count := 0 }

/-- Witness for C10 at pointer 96 (block header at 64). -/
theorem kfree_double_free_noop_witness :
    ((96 : Nat) ≠ 0 ∧ (heapC10.blocks (96 - HDR_SIZE)).magic = BLOCK_MAGIC) ∧
    (((kfree heapC10 96).blocks (96 - HDR_SIZE)).magic = FREED_MAGIC ∧
      (kfree heapC10 96).free_list = (96 - HDR_SIZE) :: heapC10.free_list ∧
      (kfree (kfree heapC10 96) 96).blocks = (kfree heapC10 96).blocks ∧
      (kfree (kfree heapC10 96) 96).free_list = (kfree heapC10 96).free_list ∧
      (kfree (kfree heapC10 96) 96).err_count = (kfree heapC10 96).err_count + 1) :=
  ⟨⟨by decide, rfl⟩, kfree_double_free_noop heapC10 96 (by decide) rfl⟩

/-- C2 counterexample: the claim states that both block request functions
sample used->idx before submission (before the available-ring store, the
avail-index increment and the notify write); in the source the sample of
used->idx into wait_idx happens only after the notify write, so the claim
is false for both traces. -/
theorem virtio_blk_sample_not_before_submission :
    ¬ samplesBeforeSubmission virtio_blk_read_trace ∧
    ¬ samplesBeforeSubmission virtio_blk_write_trace := by
  simp only [samplesBeforeSubmission]
  decide

/-- C2 amended: in virtio_blk_read and virtio_blk_write the driver places
the head descriptor index in the available ring, increments avail->idx,
writes the notify register, and only then samples used->idx; it busy-waits
until used->idx changes from that sampled value before inspecting the
status byte. -/
theorem virtio_blk_sample_after_submission :
    samplesAfterSubmission virtio_blk_read_trace ∧
    samplesAfterSubmission virtio_blk_write_trace := by
  simp only [samplesAfterSubmission]
  decide

/-- C3 counterexample: the user-stack pages are installed with PAGE_USER
(process_load_elf stack loop), a valid leaf that is EL1-writable (AP=01)
yet does not carry the user-execute-never bit — refuting the claim that
every valid EL1-writable installed leaf carries UXN. -/
theorem user_stack_leaf_counterexample :
    InstalledLeafFlags PAGE_USER ∧ pteValid PAGE_USER = true ∧
    pteEl1Writable PAGE_USER = true ∧ pteUserXN PAGE_USER = false :=
  ⟨InstalledLeafFlags.userStack, by decide, by decide, by decide⟩

/-- C3 amended: the initial kernel map's leaves (PAGE_KERNEL for RAM,
PAGE_DEVICE for MMIO) carry the user-execute-never bit, and the ELF loader
sets it on every non-executable segment; but executable segments and the
user-stack pages (PAGE_USER) are mapped without it, and the stack leaves
(as well as writable+executable segment leaves) are EL1-writable, so the
no-user-execute-on-EL1-writable invariant holds only outside the user
stack and writable-executable segments. -/
theorem installed_leaf_uxn_amended :
    pteUserXN PAGE_KERNEL = true ∧ pteUserXN PAGE_DEVICE = true ∧
    (∀ p_flags, p_flags &&& PF_X = 0 → pteUserXN (elf_segment_flags p_flags) = true) ∧
    (∀ p_flags, p_flags &&& PF_X ≠ 0 → pteUserXN (elf_segment_flags p_flags) = false) ∧
    (∀ p_flags, p_flags &&& PF_X ≠ 0 → p_flags &&& PF_W ≠ 0 →
      pteEl1Writable (elf_segment_flags p_flags) = true) ∧
    pteValid PAGE_USER = true ∧ pteEl1Writable PAGE_USER = true ∧
    pteUserXN PAGE_USER = false := by
  refine ⟨by decide, by decide, ?_, ?_, ?_, by decide, by decide, by decide⟩
  · intro p h
    simp only [elf_segment_flags]
    rw [if_pos h]
    split <;> decide
  · intro p h
    simp only [elf_segment_flags]
    rw [if_neg h]
    split <;> decide
  · intro p hx hw
    simp only [elf_segment_flags]
    rw [if_neg hx, if_pos hw]
    decide

/-- Witness for the amended C3 theorem: a read-write non-executable
segment (p_flags 6) gets UXN; a writable executable segment (p_flags 7)
gets an EL1-writable leaf without UXN. -/
theorem installed_leaf_uxn_witness :
    ((6 : Nat) &&& PF_X = 0 ∧ pteUserXN (elf_segment_flags 6) = true) ∧
    ((7 : Nat) &&& PF_X ≠ 0 ∧ pteUserXN (elf_segment_flags 7) = false ∧
      pteEl1Writable (elf_segment_flags 7) = true) :=
  ⟨⟨by decide, installed_leaf_uxn_amended.2.2.1 6 (by decide)⟩,
    ⟨by decide, installed_leaf_uxn_amended.2.2.2.1 7 (by decide),
      installed_leaf_uxn_amended.2.2.2.2.1 7 (by decide) (by decide)⟩⟩

/-- C9: sys_write returns count for every fd; bytes go to the caller's
window exactly when fd is 1 or 2 and the window lookup by the caller's
pid succeeds, and to the console for every other fd (including 0 and
negative values) or when the caller owns no window. -/
theorem sys_write_returns_count (ws : List CWindow) (cur : Option Int) (fd : Int) (count : Nat) :
    (sys_write ws cur fd count).1 = count ∧
    (¬(fd = 1 ∨ fd = 2) → (sys_write ws cur fd count).2 = WriteDest.console) ∧
    ((fd = 1 ∨ fd = 2) → 0 ≤ getWindowByPid (cur.getD 0) ws →
      (sys_write ws cur fd count).2 = WriteDest.window (getWindowByPid (cur.getD 0) ws)) ∧
    ((fd = 1 ∨ fd = 2) → getWindowByPid (cur.getD 0) ws < 0 →
      (sys_write ws cur fd count).2 = WriteDest.console) := by
  unfold sys_write
  by_cases h : fd = 1 ∨ fd = 2
  · rw [if_pos h]
    by_cases hw : getWindowByPid (cur.getD 0) ws ≥ 0
    · rw [if_pos hw]
      exact ⟨rfl, fun hn => absurd h hn, fun _ _ => rfl, fun _ hlt => absurd hw (by omega)⟩
    · rw [if_neg hw]
      exact ⟨rfl, fun hn => absurd h hn, fun _ hge => absurd hge hw, fun _ _ => rfl⟩
  · rw [if_neg h]
    exact ⟨rfl, fun _ => rfl, fun hf => absurd hf h, fun hf => absurd hf h⟩

/-- Witness for C9: fd 0 with no windows goes to the console and returns
the byte count. -/
theorem sys_write_returns_count_witness :
    (¬((0 : Int) = 1 ∨ (0 : Int) = 2)) ∧
    ((sys_write [] none 0 5).1 = 5 ∧ (sys_write [] none 0 5).2 = WriteDest.console) :=
  ⟨by decide, (sys_write_returns_count [] none 0 5).1,
    (sys_write_returns_count [] none 0 5).2.1 (by decide)⟩

/-- Compositor state for C7: sixteen free slots and a heap too small for a
2000x2000 pixel buffer, so kmalloc fails. -/
def compC7 : CompState :=
  { windows := List.replicate 16 blankWin, window_count := 0, next_window_id := 1,
    irq_on := true,
    heap := { blocks := fun _ => ⟨0, 0⟩, free_list := [], heap_ptr := 0,
              heap_end := 8388608, err_count := 0 },
    warn_count := 0 }

/-- Compositor state for the C7 contrast case: same but with room in the
heap for a small window. -/
def compC7ok : CompState :=
  { compC7 with heap := { compC7.heap with heap_end := 8388608 + 2 ^ 32 } }

/-- C7: the claim (and the spec's interrupt discipline) says window
creation re-enables interrupts on every return path; evaluating
compositor_create_window at a state where the pixel-buffer kmalloc fails
(w = h = 2000, 16000000 bytes against an 8 MiB heap) returns -1 with
interrupts still masked — the allocation-failure path (and likewise the
no-free-slot path) returns without local_irq_enable.  For contrast, a
succeeding creation does re-enable them. -/
theorem create_window_irq_left_masked :
    (compositor_create_window compC7 100 100 2000 2000 [] 3).2 = -1 ∧
    (compositor_create_window compC7 100 100 2000 2000 [] 3).1.irq_on = false ∧
    (compositor_create_window compC7ok 100 100 200 150 [] 3).2 = 1 ∧
    (compositor_create_window compC7ok 100 100 200 150 [] 3).1.irq_on = true := by
  refine ⟨by decide, by decide, by decide, by decide⟩

/-- Row fill leaves every index that is not a pixel of row py untouched. -/
theorem fillRow_ne (buf : Int → Nat) (W H x py : Int) (color : Nat) (k : Nat) (j : Int)
    (hj : ∀ px : Int, 0 ≤ px → px < W → j ≠ py * W + px) :
    fillRow buf W H x py color k j = buf j := by
  induction k with
  | zero => rfl
  | succ k ih =>
    show (if 0 ≤ x + (k : Int) ∧ x + (k : Int) < W ∧ 0 ≤ py ∧ py < H then
        fupdI (fillRow buf W H x py color k) (py * W + (x + (k : Int))) color
      else fillRow buf W H x py color k) j = buf j
    split
    · next hg =>
      rw [fupdI, if_neg (hj (x + (k : Int)) hg.1 hg.2.1)]
      exact ih
    · exact ih

/-- Value of the row fill at a pixel of row py inside the window. -/
theorem fillRow_at (buf : Int → Nat) (W H x py : Int) (color : Nat) (k : Nat) (px : Int)
    (hpx0 : 0 ≤ px) (hpxW : px < W) (hpy0 : 0 ≤ py) (hpyH : py < H) :
    fillRow buf W H x py color k (py * W + px) =
      if x ≤ px ∧ px < x + (k : Int) then color else buf (py * W + px) := by
  induction k with
  | zero =>
    rw [if_neg (by omega)]
    rfl
  | succ k ih =>
    show (if 0 ≤ x + (k : Int) ∧ x + (k : Int) < W ∧ 0 ≤ py ∧ py < H then
        fupdI (fillRow buf W H x py color k) (py * W + (x + (k : Int))) color
      else fillRow buf W H x py color k) (py * W + px) = _
    by_cases hpx : px = x + (k : Int)
    · rw [if_pos ⟨by omega, by omega, hpy0, hpyH⟩, fupdI, if_pos (by rw [hpx])]
      rw [if_pos (by push_cast; omega)]
    · have hcond : (x ≤ px ∧ px < x + ((k + 1 : Nat) : Int)) ↔ (x ≤ px ∧ px < x + (k : Int)) := by
        push_cast
        omega
      simp only [hcond]
      split
      · rw [fupdI, if_neg (by omega)]
        exact ih
      · exact ih

/-- Injectivity of the linear pixel index for in-bounds columns. -/
theorem pixel_index_inj (W px px' py py' : Int)
    (h1 : 0 ≤ px) (h2 : px < W) (h3 : 0 ≤ px') (h4 : px' < W)
    (h : py * W + px = py' * W + px') : py = py' ∧ px = px' := by
  have hW : 0 < W := by omega
  have hd : (py - py') * W = px' - px := by linear_combination h
  have hpy : py = py' := by
    by_contra hne
    rcases lt_or_gt_of_ne hne with hlt | hgt
    · have h6 : py - py' ≤ -1 := by omega
      have h7 : (py - py') * W ≤ (-1) * W :=
        mul_le_mul_of_nonneg_right h6 (le_of_lt hW)
      rw [hd] at h7
      omega
    · have h6 : 1 ≤ py - py' := by omega
      have h7 : (1 : Int) * W ≤ (py - py') * W :=
        mul_le_mul_of_nonneg_right h6 (le_of_lt hW)
      rw [hd] at h7
      omega
  refine ⟨hpy, ?_⟩
  rw [hpy] at h
  exact add_left_cancel h

/-- Value of the full rectangle fill at an in-bounds pixel: the colour
exactly on the clipped requested rectangle, the old value elsewhere. -/
theorem fillRectAux_at (buf : Int → Nat) (W H x y : Int) (w : Nat) (color : Nat) (hN : Nat)
    (px py : Int) (hpx0 : 0 ≤ px) (hpxW : px < W) (hpy0 : 0 ≤ py) (hpyH : py < H) :
    fillRectAux buf W H x y w color hN (py * W + px) =
      if x ≤ px ∧ px < x + (w : Int) ∧ y ≤ py ∧ py < y + (hN : Int) then color
      else buf (py * W + px) := by
  induction hN with
  | zero =>
    rw [if_neg (by omega)]
    rfl
  | succ k ih =>
    show fillRow (fillRectAux buf W H x y w color k) W H x (y + (k : Int)) color w
        (py * W + px) = _
    by_cases hpy : py = y + (k : Int)
    · subst hpy
      rw [fillRow_at _ _ _ _ _ _ _ _ hpx0 hpxW hpy0 hpyH, ih]
      have hyc : y ≤ y + (k : Int) ∧ y + (k : Int) < y + ((k + 1 : Nat) : Int) := by
        push_cast; omega
      by_cases hxc : x ≤ px ∧ px < x + (w : Int)
      · rw [if_pos hxc, if_pos ⟨hxc.1, hxc.2, hyc.1, hyc.2⟩]
      · rw [if_neg (fun hc => hxc ⟨hc.1, hc.2⟩), if_neg (fun hc => hxc ⟨hc.1, hc.2.1⟩),
          if_neg (fun hc => hxc ⟨hc.1, hc.2.1⟩)]
    · rw [fillRow_ne _ _ _ _ _ _ _ _ (fun px' h3 h4 heq =>
        hpy (pixel_index_inj W px px' py (y + (k : Int)) hpx0 hpxW h3 h4 heq).1), ih]
      have hcond : (x ≤ px ∧ px < x + (w : Int) ∧ y ≤ py ∧ py < y + ((k + 1 : Nat) : Int)) ↔
          (x ≤ px ∧ px < x + (w : Int) ∧ y ≤ py ∧ py < y + (k : Int)) := by
        push_cast
        omega
      simp only [hcond]

/-- Pointwise description of fillRect for a non-negative request. -/
theorem fillRect_at (buf : Int → Nat) (W H x y w h : Int) (color : Nat)
    (hw : 0 ≤ w) (hh : 0 ≤ h) (px py : Int)
    (hpx0 : 0 ≤ px) (hpxW : px < W) (hpy0 : 0 ≤ py) (hpyH : py < H) :
    fillRect buf W H x y w h color (py * W + px) =
      if x ≤ px ∧ px < x + w ∧ y ≤ py ∧ py < y + h then color
      else buf (py * W + px) := by
  unfold fillRect
  rw [fillRectAux_at buf W H x y w.toNat color h.toNat px py hpx0 hpxW hpy0 hpyH,
    Int.toNat_of_nonneg hw, Int.toNat_of_nonneg hh]

/-- One scan step at a non-matching window. -/
theorem drawRectScan_cons_skip (wid x y w h : Int) (color : Nat) (caller : Int)
    (a : CWindow) (rest : List CWindow) (ha : ¬(a.id = wid ∧ a.bufPtr ≠ 0)) :
    drawRectScan wid x y w h color caller (a :: rest) =
      (a :: (drawRectScan wid x y w h color caller rest).1,
        (drawRectScan wid x y w h color caller rest).2) := by
  conv_lhs => rw [drawRectScan]
  rw [if_neg ha]

/-- The draw_rect scan skips a prefix with no id-and-buffer match. -/
theorem drawRectScan_append (wid x y w h : Int) (color : Nat) (caller : Int)
    (pre rest : List CWindow) (hpre : ∀ u ∈ pre, ¬(u.id = wid ∧ u.bufPtr ≠ 0)) :
    drawRectScan wid x y w h color caller (pre ++ rest) =
      (pre ++ (drawRectScan wid x y w h color caller rest).1,
        (drawRectScan wid x y w h color caller rest).2) := by
  induction pre with
  | nil => simp
  | cons a pre ih =>
    rw [List.cons_append, drawRectScan_cons_skip wid x y w h color caller a _ (hpre a (by simp)),
      ih (fun u hu => hpre u (by simp [hu]))]
    simp

/-- One scan step at the matching window. -/
theorem drawRectScan_cons_match (wid x y w h : Int) (color : Nat) (caller : Int)
    (win : CWindow) (rest : List CWindow) (hid : win.id = wid) (hbuf : win.bufPtr ≠ 0) :
    drawRectScan wid x y w h color caller (win :: rest) =
      if win.pid ≠ caller ∧ caller ≠ 1 then (win :: rest, true)
      else ({ win with bufMem := fillRect win.bufMem win.width win.height x y w h color } :: rest,
        false) := by
  unfold drawRectScan
  rw [if_pos ⟨hid, hbuf⟩]

/-- C4: compositor_draw_rect at the first window matching the id (with a
live buffer): when the caller is neither the owner nor pid 1, a warning
is logged and the window array — in particular the pixel buffer — is left
unchanged; when the ownership check passes, no warning is logged and the
requested rectangle, clipped to the window bounds, is filled with the
colour while all other pixels keep their values. -/
theorem compositor_draw_rect_ownership (st : CompState) (pre : List CWindow) (win : CWindow)
    (post : List CWindow) (wid x y w h : Int) (color : Nat) (caller : Int)
    (hws : st.windows = pre ++ win :: post)
    (hpre : ∀ u ∈ pre, ¬(u.id = wid ∧ u.bufPtr ≠ 0))
    (hid : win.id = wid) (hbuf : win.bufPtr ≠ 0) :
    ((win.pid ≠ caller ∧ caller ≠ 1) →
      (compositor_draw_rect st wid x y w h color caller).windows = st.windows ∧
      (compositor_draw_rect st wid x y w h color caller).warn_count = st.warn_count + 1) ∧
    (¬(win.pid ≠ caller ∧ caller ≠ 1) →
      (compositor_draw_rect st wid x y w h color caller).windows =
        pre ++ { win with bufMem := fillRect win.bufMem win.width win.height x y w h color }
          :: post ∧
      (compositor_draw_rect st wid x y w h color caller).warn_count = st.warn_count ∧
      (0 ≤ w → 0 ≤ h → ∀ px py : Int, 0 ≤ px → px < win.width → 0 ≤ py → py < win.height →
        fillRect win.bufMem win.width win.height x y w h color (py * win.width + px) =
          if x ≤ px ∧ px < x + w ∧ y ≤ py ∧ py < y + h then color
          else win.bufMem (py * win.width + px))) := by
  have hscan := drawRectScan_append wid x y w h color caller pre (win :: post) hpre
  rw [drawRectScan_cons_match wid x y w h color caller win post hid hbuf] at hscan
  constructor
  · intro hdeny
    rw [if_pos hdeny] at hscan
    unfold compositor_draw_rect
    rw [hws, hscan]
    simp
  · intro hallow
    rw [if_neg hallow] at hscan
    unfold compositor_draw_rect
    rw [hws, hscan]
    refine ⟨by simp, by simp, fun hw hh px py h1 h2 h3 h4 =>
      fillRect_at win.bufMem win.width win.height x y w h color hw hh px py h1 h2 h3 h4⟩

/-- Concrete window and state for the C4 witness. -/
def winC4 : CWindow :=
  { blankWin with id := 5, width := 10, height := 8, pid := 3, bufPtr := 1000 }

/-- Single-window compositor state for the C4 witness. -/
def stC4 : CompState :=
  { windows := [winC4], window_count := 1, next_window_id := 6, irq_on := true,
    heap := { blocks := fun _ => ⟨0, 0⟩, free_list := [], heap_ptr := 0, heap_end := 0,
              err_count := 0 },
    warn_count := 0 }

/-- Compositor state for the C5 scenario: sixteen free slots and a heap
with room for a 200x150 pixel buffer. -/
def stC5base : CompState :=
  { windows := List.replicate 16 blankWin, window_count := 0, next_window_id := 1,
    irq_on := true,
    heap := { blocks := fun _ => ⟨0, 0⟩, free_list := [], heap_ptr := 0,
              heap_end := 1048576, err_count := 0 },
    warn_count := 0 }

/-- The fresh 200x150 window produced by compositor_create_window for the
C5 scenario (owner pid 2). -/
def winC5 : CWindow :=
  ((compositor_create_window stC5base 100 100 200 150 [119] 2).1.windows).getD 0 blankWin

/-- The byte stream ESC [ 3 2 m O K ESC [ 0 m newline of the (D)
scenario. -/
def okStreamC5 : List Nat :=
  [27, 91, 51, 50, 109, 79, 75, 27, 91, 48, 109, 10]

/-- A small well-formed allocator state: a 4-frame DMA zone, a 28-frame
normal zone, all frames free. -/
def stC8 : PMMState :=
  { dma := { start_pfn := 0, end_pfn := 4, bitmap := fun _ => false, free_pages := 4 },
    normal := { start_pfn := 4, end_pfn := 32, bitmap := fun _ => false, free_pages := 28 },
    pages := fun _ => { flags := 0, refcount := 0 },
    free_pages := 32, total_pages := 32 }

/-! ## Helper lemmas -/








/-- Witness for C4: a draw by pid 9 on the window owned by pid 3 logs a
warning and leaves the window array unchanged. -/
theorem compositor_draw_rect_ownership_witness :
    (stC4.windows = [] ++ winC4 :: [] ∧ winC4.id = 5 ∧ winC4.bufPtr ≠ 0 ∧
      winC4.pid ≠ 9 ∧ (9 : Int) ≠ 1) ∧
    ((compositor_draw_rect stC4 5 1 1 2 2 7 9).windows = stC4.windows ∧
      (compositor_draw_rect stC4 5 1 1 2 2 7 9).warn_count = stC4.warn_count + 1) :=
  ⟨⟨rfl, rfl, by decide, by decide, by decide⟩,
    (compositor_draw_rect_ownership stC4 [] winC4 [] 5 1 1 2 2 7 9 rfl
      (fun u hu => absurd hu (List.not_mem_nil u)) rfl (by decide)).1 ⟨by decide, by decide⟩⟩

/-- Pointwise description of the buffer-clearing loop. -/
theorem bufFillN_at (buf : Int → Nat) (color : Nat) (n : Nat) (j : Int) :
    bufFillN buf color n j = if 0 ≤ j ∧ j < (n : Int) then color else buf j := by
  induction n with
  | zero =>
    rw [if_neg (by omega)]
    rfl
  | succ k ih =>
    show fupdI (bufFillN buf color k) (k : Int) color j = _
    rw [fupdI]
    by_cases hj : j = (k : Int)
    · rw [if_pos hj, if_pos (by push_cast; omega)]
    · rw [if_neg hj, ih]
      have hc : (0 ≤ j ∧ j < ((k + 1 : Nat) : Int)) ↔ (0 ≤ j ∧ j < (k : Int)) := by
        push_cast
        omega
      simp only [hc]

/-- The wrap and scroll checks never touch the escape state, the parameter
buffer or the foreground colour. -/
theorem wrapScroll_escape_state (cols rows : Int) (w : CWindow) :
    (windowWrapScroll cols rows w).escape_state = w.escape_state := by
  simp only [windowWrapScroll]
  split <;> split <;> rfl

/-- The wrap and scroll checks never touch the parameter buffer. -/
theorem wrapScroll_escape_buf (cols rows : Int) (w : CWindow) :
    (windowWrapScroll cols rows w).escape_buf = w.escape_buf := by
  simp only [windowWrapScroll]
  split <;> split <;> rfl

/-- The wrap and scroll checks never touch the foreground colour. -/
theorem wrapScroll_fg_color (cols rows : Int) (w : CWindow) :
    (windowWrapScroll cols rows w).fg_color = w.fg_color := by
  simp only [windowWrapScroll]
  split <;> split <;> rfl

/-- With the cursor strictly inside the column and row counts, the wrap
and scroll checks are the identity. -/
theorem wrapScroll_id (cols rows : Int) (w : CWindow)
    (h1 : w.cursor_x < cols) (h2 : w.cursor_y < rows) :
    windowWrapScroll cols rows w = w := by
  simp only [windowWrapScroll]
  rw [if_neg (by omega : ¬w.cursor_x ≥ cols), if_neg (by omega : ¬w.cursor_y ≥ rows)]

/-- A positive truncated quotient from a positive divisor not exceeding
the dividend. -/
theorem one_le_tdiv (a b : Int) (hb : 0 < b) (h : b ≤ a) : 1 ≤ a.tdiv b := by
  rw [Int.tdiv_eq_ediv (by omega) (by omega), Int.le_ediv_iff_mul_le hb]
  omega

/-- handle_sgr never touches the parameter buffer. -/
theorem handle_sgr_escape_buf (win : CWindow) :
    (handle_sgr win).escape_buf = win.escape_buf := by
  simp only [handle_sgr]
  repeat' split
  all_goals rfl

/-- C5 counterexample: the claim says an IN_CSI letter dispatches, clears
the parameters and returns to NORMAL; after writing ESC [ 3 m to a fresh
window the parser is back in NORMAL but the parameter buffer still holds
the byte '3' — the source clears it only when the next ESC arrives. -/
theorem escape_parser_counterexample :
    (windowWriteBytes winC5 [27, 91, 51, 109]).1.escape_state = 0 ∧
    (windowWriteBytes winC5 [27, 91, 51, 109]).1.escape_buf = [51] ∧
    [51] ≠ ([] : List Nat) := by decide

/-- C5 amended: the escape parser is the three-state machine
NORMAL(0)/SAW_ESC(1)/IN_CSI(2) with: NORMAL + ESC entering SAW_ESC and
resetting the parameter buffer; SAW_ESC + bracket entering IN_CSI, any
other byte returning to NORMAL; IN_CSI appending digit-or-semicolon bytes
to the bounded parameter buffer; an IN_CSI letter dispatching ('m' selects
the 30-37 and 90-97 palettes with reset to white on 0 or an empty
parameter buffer, 'J' clears the buffer and homes the cursor, 'H' homes
the cursor) and returning to NORMAL — but leaving the parameter buffer as
it is (it is reset only by the next ESC); buffer overflow returning to
NORMAL without dispatch.  Writing ESC [ 3 2 m O K ESC [ 0 m newline to a
fresh 200x150 window renders exactly 'O' and 'K' in green 0xFF00BB00 and
leaves the cursor at column 0 of the next row with white foreground. -/
theorem escape_parser_machine :
    (∀ win : CWindow, win.escape_state = 0 →
      (windowWriteChar win 27).1.escape_state = 1 ∧
      (windowWriteChar win 27).1.escape_buf = []) ∧
    (∀ win : CWindow, win.escape_state = 1 →
      (windowWriteChar win 91).1.escape_state = 2 ∧
      ∀ c : Nat, c ≠ 91 → (windowWriteChar win c).1.escape_state = 0) ∧
    (∀ (win : CWindow) (c : Nat), win.escape_state = 2 →
      ((48 ≤ c ∧ c ≤ 57) ∨ c = 59) → win.escape_buf.length < 31 →
      (windowWriteChar win c).1.escape_state = 2 ∧
      (windowWriteChar win c).1.escape_buf = win.escape_buf ++ [c]) ∧
    (∀ (win : CWindow) (c : Nat), win.escape_state = 2 →
      ((97 ≤ c ∧ c ≤ 122) ∨ (65 ≤ c ∧ c ≤ 90)) →
      (windowWriteChar win c).1.escape_state = 0 ∧
      (windowWriteChar win c).1.escape_buf = win.escape_buf) ∧
    (∀ win : CWindow, win.escape_state = 2 →
      ((win.escape_buf = [] ∨ sgrVal win.escape_buf = 0 →
          (windowWriteChar win 109).1.fg_color = 0xFFFFFFFF) ∧
        (win.escape_buf ≠ [] → 30 ≤ sgrVal win.escape_buf → sgrVal win.escape_buf ≤ 37 →
          (windowWriteChar win 109).1.fg_color = sgrBasic (sgrVal win.escape_buf - 30)) ∧
        (win.escape_buf ≠ [] → 90 ≤ sgrVal win.escape_buf → sgrVal win.escape_buf ≤ 97 →
          (windowWriteChar win 109).1.fg_color = sgrBright (sgrVal win.escape_buf - 90)))) ∧
    (∀ win : CWindow, win.escape_state = 2 → 8 ≤ win.width → 16 ≤ win.height →
      (windowWriteChar win 74).1.cursor_x = 0 ∧ (windowWriteChar win 74).1.cursor_y = 0 ∧
      ∀ j : Int, 0 ≤ j → j < win.width * win.height →
        (windowWriteChar win 74).1.bufMem j = win.bg_color) ∧
    (∀ win : CWindow, win.escape_state = 2 → 8 ≤ win.width → 16 ≤ win.height →
      (windowWriteChar win 72).1.cursor_x = 0 ∧ (windowWriteChar win 72).1.cursor_y = 0) ∧
    (∀ (win : CWindow) (c : Nat), win.escape_state = 2 →
      ¬((97 ≤ c ∧ c ≤ 122) ∨ (65 ≤ c ∧ c ≤ 90)) → ¬win.escape_buf.length < 31 →
      win.cursor_x < win.width.tdiv 8 → win.cursor_y < win.height.tdiv 16 →
      (windowWriteChar win c).1 = { win with escape_state := 0 }) ∧
    ((windowWriteBytes winC5 okStreamC5).2 =
        [DrawEvent.drawChar 0 0 79 0xFF00BB00, DrawEvent.drawChar 8 0 75 0xFF00BB00] ∧
      (windowWriteBytes winC5 okStreamC5).1.cursor_x = 0 ∧
      (windowWriteBytes winC5 okStreamC5).1.cursor_y = 1 ∧
      (windowWriteBytes winC5 okStreamC5).1.fg_color = 0xFFFFFFFF) := by
  refine ⟨?_, ?_, ?_, ?_, ?_, ?_, ?_, ?_, by decide⟩
  · intro win h
    have hs : (windowEscStep win 27).1 = { win with escape_state := 1, escape_buf := [] } := by
      unfold windowEscStep
      rw [if_pos h, if_pos rfl]
    constructor
    · show (windowWrapScroll _ _ (windowEscStep win 27).1).escape_state = 1
      rw [hs, wrapScroll_escape_state]
    · show (windowWrapScroll _ _ (windowEscStep win 27).1).escape_buf = []
      rw [hs, wrapScroll_escape_buf]
  · intro win h
    have h0 : ¬win.escape_state = 0 := by omega
    constructor
    · have hs : (windowEscStep win 91).1 = { win with escape_state := 2 } := by
        unfold windowEscStep
        rw [if_neg h0, if_pos h, if_pos rfl]
      show (windowWrapScroll _ _ (windowEscStep win 91).1).escape_state = 2
      rw [hs, wrapScroll_escape_state]
    · intro c hc
      have hs : (windowEscStep win c).1 = { win with escape_state := 0 } := by
        unfold windowEscStep
        rw [if_neg h0, if_pos h, if_neg hc]
      show (windowWrapScroll _ _ (windowEscStep win c).1).escape_state = 0
      rw [hs, wrapScroll_escape_state]
  · intro win c h2 hd hlen
    have h0 : ¬win.escape_state = 0 := by omega
    have h1 : ¬win.escape_state = 1 := by omega
    have hnl : ¬((97 ≤ c ∧ c ≤ 122) ∨ (65 ≤ c ∧ c ≤ 90)) := by omega
    have hs : (windowEscStep win c).1 = { win with escape_buf := win.escape_buf ++ [c] } := by
      unfold windowEscStep
      rw [if_neg h0, if_neg h1, if_pos h2, if_neg hnl, if_pos hlen]
    constructor
    · show (windowWrapScroll _ _ (windowEscStep win c).1).escape_state = 2
      rw [hs, wrapScroll_escape_state]
      exact h2
    · show (windowWrapScroll _ _ (windowEscStep win c).1).escape_buf = win.escape_buf ++ [c]
      rw [hs, wrapScroll_escape_buf]
  · intro win c h2 hl
    have h0 : ¬win.escape_state = 0 := by omega
    have h1 : ¬win.escape_state = 1 := by omega
    constructor
    · show (windowWrapScroll _ _ (windowEscStep win c).1).escape_state = 0
      rw [wrapScroll_escape_state]
      unfold windowEscStep
      rw [if_neg h0, if_neg h1, if_pos h2, if_pos hl]
    · show (windowWrapScroll _ _ (windowEscStep win c).1).escape_buf = win.escape_buf
      rw [wrapScroll_escape_buf]
      unfold windowEscStep
      rw [if_neg h0, if_neg h1, if_pos h2, if_pos hl]
      show (if c = 109 then handle_sgr win
        else if c = 74 then
          { win with bufMem := bufFillN win.bufMem win.bg_color (win.width * win.height).toNat,
                     cursor_x := 0, cursor_y := 0 }
        else if c = 72 then { win with cursor_x := 0, cursor_y := 0 }
        else win).escape_buf = win.escape_buf
      split
      · exact handle_sgr_escape_buf win
      · split
        · rfl
        · split <;> rfl
  · intro win h2
    have h0 : ¬win.escape_state = 0 := by omega
    have h1 : ¬win.escape_state = 1 := by omega
    have hfg : (windowWriteChar win 109).1.fg_color = (handle_sgr win).fg_color := by
      show (windowWrapScroll _ _ (windowEscStep win 109).1).fg_color = _
      rw [wrapScroll_fg_color]
      unfold windowEscStep
      rw [if_neg h0, if_neg h1, if_pos h2, if_pos (by decide), if_pos rfl]
    refine ⟨?_, ?_, ?_⟩
    · intro hw
      rw [hfg]
      unfold handle_sgr
      rcases hw with hw | hw
      · rw [if_pos hw]
      · by_cases hne : win.escape_buf = []
        · rw [if_pos hne]
        · rw [if_neg hne, if_pos hw]
    · intro hne h30 h37
      rw [hfg]
      unfold handle_sgr
      rw [if_neg hne, if_neg (by omega), if_pos ⟨h30, h37⟩]
    · intro hne h90 h97
      rw [hfg]
      unfold handle_sgr
      rw [if_neg hne, if_neg (by omega), if_neg (by omega), if_pos ⟨h90, h97⟩]
  · intro win h2 hwd hht
    have h0 : ¬win.escape_state = 0 := by omega
    have h1 : ¬win.escape_state = 1 := by omega
    have hs : (windowEscStep win 74).1 =
        { win with bufMem := bufFillN win.bufMem win.bg_color (win.width * win.height).toNat,
                   cursor_x := 0, cursor_y := 0, escape_state := 0 } := by
      unfold windowEscStep
      rw [if_neg h0, if_neg h1, if_pos h2, if_pos (by decide), if_neg (by decide), if_pos rfl]
    have hid : (windowWriteChar win 74).1 =
        { win with bufMem := bufFillN win.bufMem win.bg_color (win.width * win.height).toNat,
                   cursor_x := 0, cursor_y := 0, escape_state := 0 } := by
      show windowWrapScroll _ _ (windowEscStep win 74).1 = _
      rw [hs]
      exact wrapScroll_id _ _ _ (by exact one_le_tdiv _ _ (by omega) hwd)
        (by exact one_le_tdiv _ _ (by omega) hht)
    refine ⟨by rw [hid], by rw [hid], fun j hj0 hjlt => ?_⟩
    rw [hid]
    show bufFillN win.bufMem win.bg_color (win.width * win.height).toNat j = win.bg_color
    have hto : (((win.width * win.height).toNat : Nat) : Int) = win.width * win.height :=
      Int.toNat_of_nonneg (by positivity)
    rw [bufFillN_at, if_pos ⟨hj0, by rw [hto]; exact hjlt⟩]
  · intro win h2 hwd hht
    have h0 : ¬win.escape_state = 0 := by omega
    have h1 : ¬win.escape_state = 1 := by omega
    have hs : (windowEscStep win 72).1 =
        { win with cursor_x := 0, cursor_y := 0, escape_state := 0 } := by
      unfold windowEscStep
      rw [if_neg h0, if_neg h1, if_pos h2, if_pos (by decide), if_neg (by decide),
        if_neg (by decide), if_pos rfl]
    have hid : (windowWriteChar win 72).1 =
        { win with cursor_x := 0, cursor_y := 0, escape_state := 0 } := by
      show windowWrapScroll _ _ (windowEscStep win 72).1 = _
      rw [hs]
      exact wrapScroll_id _ _ _ (by exact one_le_tdiv _ _ (by omega) hwd)
        (by exact one_le_tdiv _ _ (by omega) hht)
    exact ⟨by rw [hid], by rw [hid]⟩
  · intro win c h2 hnl hlen hcx hcy
    have h0 : ¬win.escape_state = 0 := by omega
    have h1 : ¬win.escape_state = 1 := by omega
    have hs : (windowEscStep win c).1 = { win with escape_state := 0 } := by
      unfold windowEscStep
      rw [if_neg h0, if_neg h1, if_pos h2, if_neg hnl, if_neg hlen]
    show windowWrapScroll _ _ (windowEscStep win c).1 = _
    rw [hs]
    exact wrapScroll_id _ _ _ hcx hcy

/-- Witness for the amended C5 theorem: the NORMAL + ESC transition at the
fresh window winC5. -/
theorem escape_parser_machine_witness :
    (winC5.escape_state = 0) ∧
    ((windowWriteChar winC5 27).1.escape_state = 1 ∧
      (windowWriteChar winC5 27).1.escape_buf = []) :=
  ⟨by decide, escape_parser_machine.1 winC5 (by decide)⟩

/-- Masking with the 64-bit complement of a power of two rounds down to a
multiple of that power (for inputs below 2^64). -/
theorem land_two_pow_complement (x k w : Nat) (hx : x < 2 ^ w) (hk : k ≤ w) :
    x &&& (2 ^ w - 2 ^ k) = x / 2 ^ k * 2 ^ k := by
  apply Nat.eq_of_testBit_eq
  intro i
  rw [Nat.testBit_land]
  have hmask : (2 ^ w - 2 ^ k : Nat) = (2 ^ (w - k) - 1) <<< k := by
    rw [Nat.shiftLeft_eq, Nat.sub_mul, one_mul, ← pow_add]
    congr 2
    omega
  have hrhs : x / 2 ^ k * 2 ^ k = (x >>> k) <<< k := by
    rw [Nat.shiftLeft_eq, Nat.shiftRight_eq_div_pow]
  rw [hmask, hrhs, Nat.testBit_shiftLeft, Nat.testBit_shiftLeft,
    Nat.testBit_two_pow_sub_one, Nat.testBit_shiftRight]
  by_cases hik : k ≤ i
  · by_cases hiw : i < w
    · simp [ge_iff_le, hik, show i - k < w - k by omega, show k + (i - k) = i by omega]
    · have hbit : x.testBit i = false :=
        Nat.testBit_lt_two_pow (lt_of_lt_of_le hx (pow_le_pow_right (by norm_num) (by omega)))
      simp [ge_iff_le, hik, hbit, show k + (i - k) = i by omega]
  · simp [ge_iff_le, hik]

/-- Specification of the first-fit single-frame scan. -/
theorem findFreeFrom_spec (bm : Nat → Bool) (fuel : Nat) :
    ∀ i p, findFreeFrom bm i fuel = some p → i ≤ p ∧ p < i + fuel ∧ bm p = false := by
  induction fuel with
  | zero => intro i p h; simp [findFreeFrom] at h
  | succ fuel ih =>
    intro i p h
    rw [findFreeFrom] at h
    by_cases hb : bm i
    · rw [if_pos hb] at h
      have := ih (i + 1) p h
      exact ⟨by omega, by omega, this.2.2⟩
    · rw [if_neg hb] at h
      cases h
      exact ⟨le_refl _, by omega, by simpa using hb⟩

/-- Specification of the sliding-window contiguous scan: a successful
result is a run of count clear bits ending within the scanned range. -/
theorem findContigFrom_spec (bm : Nat → Bool) (count : Nat) (fuel : Nat) :
    ∀ i found first f, findContigFrom bm count i found first fuel = some f →
      (found ≠ 0 → i = first + found ∧ ∀ j, j < found → bm (first + j) = false) →
      (∀ j, j < count → bm (f + j) = false) ∧ f + count ≤ i + fuel := by
  induction fuel with
  | zero => intro i found first f h; simp [findContigFrom] at h
  | succ fuel ih =>
    intro i found first f h hinv
    rw [findContigFrom] at h
    by_cases hb : bm i
    · rw [if_pos hb] at h
      have := ih (i + 1) 0 first f h (fun hc => absurd rfl hc)
      exact ⟨this.1, by omega⟩
    · rw [if_neg hb] at h
      by_cases hcnt : found + 1 = count
      · rw [if_pos hcnt] at h
        cases h
        by_cases hf0 : found = 0
        · subst hf0
          rw [if_pos rfl]
          constructor
          · intro j hj
            have : j = 0 := by omega
            subst this
            simpa using hb
          · omega
        · rw [if_neg hf0]
          obtain ⟨hi, hfree⟩ := hinv hf0
          constructor
          · intro j hj
            by_cases hjf : j < found
            · exact hfree j hjf
            · have : j = found := by omega
              subst this
              rw [← hi]
              simpa using hb
          · omega
      · rw [if_neg hcnt] at h
        have := ih (i + 1) (found + 1) (if found = 0 then i else first) f h ?_
        · exact ⟨this.1, by omega⟩
        · intro _
          by_cases hf0 : found = 0
          · subst hf0
            rw [if_pos rfl]
            exact ⟨by omega, fun j hj => by
              have : j = 0 := by omega
              subst this
              simpa using hb⟩
          · rw [if_neg hf0]
            obtain ⟨hi, hfree⟩ := hinv hf0
            refine ⟨by omega, fun j hj => ?_⟩
            by_cases hjf : j < found
            · exact hfree j hjf
            · have : j = found := by omega
              subst this
              rw [← hi]
              simpa using hb

/-- Pointwise description of the bit-marking loop. -/
theorem setBitsFrom_at (bm : Nat → Bool) (p n : Nat) (j : Nat) :
    setBitsFrom bm p n j = if p ≤ j ∧ j < p + n then true else bm j := by
  induction n with
  | zero => rw [if_neg (by omega)]; rfl
  | succ k ih =>
    show bupd (setBitsFrom bm p k) (p + k) true j = _
    rw [bupd]
    by_cases hj : j = p + k
    · rw [if_pos hj, if_pos (by omega)]
    · rw [if_neg hj, ih]
      by_cases hr : p ≤ j ∧ j < p + k
      · rw [if_pos hr, if_pos (by omega)]
      · rw [if_neg hr, if_neg (by omega)]

/-- Pointwise description of the descriptor-initialization loop. -/
theorem initPagesFrom_at (pg : Nat → CPage) (p n : Nat) (j : Nat) :
    initPagesFrom pg p n j = if p ≤ j ∧ j < p + n then (⟨0, 1⟩ : CPage) else pg j := by
  induction n with
  | zero => rw [if_neg (by omega)]; rfl
  | succ k ih =>
    show fupd (initPagesFrom pg p k) (p + k) ⟨0, 1⟩ j = _
    rw [fupd]
    by_cases hj : j = p + k
    · rw [if_pos hj, if_pos (by omega)]
    · rw [if_neg hj, ih]
      by_cases hr : p ≤ j ∧ j < p + k
      · rw [if_pos hr, if_pos (by omega)]
      · rw [if_neg hr, if_neg (by omega)]

/-- Characterization of a successful single-frame zone allocation. -/
theorem zone_alloc_page_spec (z : CZone) (pg : Nat → CPage) (addr : Nat) (z1 : CZone)
    (pg1 : Nat → CPage) (h : zone_alloc_page z pg = some (addr, z1, pg1)) :
    ∃ pfn, pfn < z.end_pfn - z.start_pfn ∧ z.bitmap pfn = false ∧
      addr = MEMORY_BASE + (z.start_pfn + pfn) * PAGE_SIZE ∧
      z1.bitmap = bupd z.bitmap pfn true ∧ z1.start_pfn = z.start_pfn ∧
      z1.end_pfn = z.end_pfn ∧ pg1 = fupd pg (z.start_pfn + pfn) ⟨0, 1⟩ := by
  unfold zone_alloc_page at h
  cases hf : bitmap_find_free z.bitmap 0 (z.end_pfn - z.start_pfn) with
  | none => rw [hf] at h; exact absurd h (by simp)
  | some pfn =>
    rw [hf] at h
    simp only [Option.some.injEq, Prod.mk.injEq] at h
    obtain ⟨h1, h2, h3⟩ := h
    have hspec := findFreeFrom_spec z.bitmap (z.end_pfn - z.start_pfn) 0 pfn hf
    refine ⟨pfn, by omega, hspec.2.2, h1.symm, by rw [← h2], by rw [← h2], by rw [← h2],
      by rw [← h3]⟩

/-- Characterization of a successful pmm_alloc_page: a single previously
free frame of the normal or the DMA zone is marked used, its descriptor
set to flags 0 / refcount 1; everything else is untouched. -/
theorem pmm_alloc_page_spec (st : PMMState) (addr : Nat)
    (h : (pmm_alloc_page st).1 = some addr) :
    (∃ pfn, pfn < st.normal.end_pfn - st.normal.start_pfn ∧ st.normal.bitmap pfn = false ∧
      addr = MEMORY_BASE + (st.normal.start_pfn + pfn) * PAGE_SIZE ∧
      (pmm_alloc_page st).2.normal.bitmap = bupd st.normal.bitmap pfn true ∧
      (pmm_alloc_page st).2.normal.start_pfn = st.normal.start_pfn ∧
      (pmm_alloc_page st).2.normal.end_pfn = st.normal.end_pfn ∧
      (pmm_alloc_page st).2.dma = st.dma ∧
      (pmm_alloc_page st).2.total_pages = st.total_pages) ∨
    (∃ pfn, pfn < st.dma.end_pfn - st.dma.start_pfn ∧ st.dma.bitmap pfn = false ∧
      addr = MEMORY_BASE + (st.dma.start_pfn + pfn) * PAGE_SIZE ∧
      (pmm_alloc_page st).2.dma.bitmap = bupd st.dma.bitmap pfn true ∧
      (pmm_alloc_page st).2.dma.start_pfn = st.dma.start_pfn ∧
      (pmm_alloc_page st).2.dma.end_pfn = st.dma.end_pfn ∧
      (pmm_alloc_page st).2.normal = st.normal ∧
      (pmm_alloc_page st).2.total_pages = st.total_pages) := by
  cases hn : zone_alloc_page st.normal st.pages with
  | some r =>
    obtain ⟨a1, z1, pg1⟩ := r
    have heq : pmm_alloc_page st =
        (some a1, { st with normal := z1, pages := pg1,
                            free_pages := st.free_pages - 1 }) := by
      unfold pmm_alloc_page
      rw [hn]
    obtain ⟨pfn, hp1, hp2, hp3, hp4, hp5, hp6, _⟩ := zone_alloc_page_spec _ _ _ _ _ hn
    rw [heq] at h
    have haddr : a1 = addr := by simpa using h
    refine Or.inl ⟨pfn, hp1, hp2, haddr ▸ hp3, ?_, ?_, ?_, ?_, ?_⟩ <;> rw [heq]
    · exact hp4
    · exact hp5
    · exact hp6
  | none =>
    cases hd : zone_alloc_page st.dma st.pages with
    | some r =>
      obtain ⟨a1, z1, pg1⟩ := r
      have heq : pmm_alloc_page st =
          (some a1, { st with dma := z1, pages := pg1,
                              free_pages := st.free_pages - 1 }) := by
        unfold pmm_alloc_page
        rw [hn, hd]
      obtain ⟨pfn, hp1, hp2, hp3, hp4, hp5, hp6, _⟩ := zone_alloc_page_spec _ _ _ _ _ hd
      rw [heq] at h
      have haddr : a1 = addr := by simpa using h
      refine Or.inr ⟨pfn, hp1, hp2, haddr ▸ hp3, ?_, ?_, ?_, ?_, ?_⟩ <;> rw [heq]
      · exact hp4
      · exact hp5
      · exact hp6
    | none =>
      have heq : pmm_alloc_page st = (none, st) := by
        unfold pmm_alloc_page
        rw [hn, hd]
      rw [heq] at h
      exact absurd h (by simp)

/-- Characterization of a successful contiguous allocation of two or more
frames: a previously free run of the normal zone is marked used and its
descriptors initialized; the DMA zone and the geometry are untouched. -/
theorem pmm_alloc_pages_spec (st : PMMState) (count : Nat) (addr : Nat) (hc : 2 ≤ count)
    (h : (pmm_alloc_pages st count).1 = some addr) :
    ∃ first, addr = MEMORY_BASE + (st.normal.start_pfn + first) * PAGE_SIZE ∧
      first + count ≤ st.normal.end_pfn - st.normal.start_pfn ∧
      (∀ j, j < count → st.normal.bitmap (first + j) = false) ∧
      (pmm_alloc_pages st count).2.normal.bitmap = setBitsFrom st.normal.bitmap first count ∧
      (pmm_alloc_pages st count).2.normal.start_pfn = st.normal.start_pfn ∧
      (pmm_alloc_pages st count).2.normal.end_pfn = st.normal.end_pfn ∧
      (pmm_alloc_pages st count).2.dma = st.dma ∧
      (pmm_alloc_pages st count).2.pages =
        initPagesFrom st.pages (st.normal.start_pfn + first) count ∧
      (pmm_alloc_pages st count).2.total_pages = st.total_pages := by
  cases hf : bitmap_find_contiguous st.normal.bitmap 0
      (st.normal.end_pfn - st.normal.start_pfn) count with
  | none =>
    have heq : pmm_alloc_pages st count = (none, st) := by
      simp only [pmm_alloc_pages, if_neg (show ¬count = 0 by omega),
        if_neg (show ¬count = 1 by omega)]
      rw [hf]
    rw [heq] at h
    exact absurd h (by simp)
  | some first =>
    have heq : pmm_alloc_pages st count =
        (some (MEMORY_BASE + (st.normal.start_pfn + first) * PAGE_SIZE),
          { st with
              normal := { st.normal with
                bitmap := setBitsFrom st.normal.bitmap first count,
                free_pages := st.normal.free_pages - count },
              pages := initPagesFrom st.pages (st.normal.start_pfn + first) count,
              free_pages := st.free_pages - count }) := by
      simp only [pmm_alloc_pages, if_neg (show ¬count = 0 by omega),
        if_neg (show ¬count = 1 by omega)]
      rw [hf]
    rw [heq] at h
    have haddr : addr = MEMORY_BASE + (st.normal.start_pfn + first) * PAGE_SIZE := by
      have := h
      simp at this
      omega
    have hspec := findContigFrom_spec st.normal.bitmap count
      (st.normal.end_pfn - st.normal.start_pfn) 0 0 0 first hf (fun hcc => absurd rfl hcc)
    refine ⟨first, haddr, by omega, fun j hj => hspec.1 j hj, ?_, ?_, ?_, ?_, ?_, ?_⟩ <;>
      rw [heq]

/-- Effect of pmm_free_page on a normal-zone frame whose descriptor is
flags 0 / refcount 1: the refcount drops to zero and the zone-relative
bit is cleared; zone bounds, the DMA zone and other frames are untouched. -/
theorem pmm_free_page_spec (st : PMMState) (p : Nat)
    (hge : st.dma.end_pfn ≤ p) (hlt : p < st.total_pages)
    (hpg : st.pages p = ⟨0, 1⟩) :
    (pmm_free_page st (MEMORY_BASE + p * PAGE_SIZE)).normal.bitmap =
      bupd st.normal.bitmap (p - st.dma.end_pfn) false ∧
    (pmm_free_page st (MEMORY_BASE + p * PAGE_SIZE)).pages = fupd st.pages p ⟨0, 0⟩ ∧
    (pmm_free_page st (MEMORY_BASE + p * PAGE_SIZE)).dma = st.dma ∧
    (pmm_free_page st (MEMORY_BASE + p * PAGE_SIZE)).normal.start_pfn =
      st.normal.start_pfn ∧
    (pmm_free_page st (MEMORY_BASE + p * PAGE_SIZE)).normal.end_pfn = st.normal.end_pfn ∧
    (pmm_free_page st (MEMORY_BASE + p * PAGE_SIZE)).total_pages = st.total_pages := by
  have hpfn : (MEMORY_BASE + p * PAGE_SIZE - MEMORY_BASE) / PAGE_SIZE = p := by
    unfold MEMORY_BASE PAGE_SIZE
    omega
  unfold pmm_free_page
  rw [if_neg (by unfold MEMORY_BASE PAGE_SIZE; omega),
    if_neg (by unfold MEMORY_BASE PAGE_SIZE; omega), hpfn,
    if_neg (by omega), hpg]
  rw [if_neg (by decide), if_neg (by norm_num), if_neg (by omega)]
  refine ⟨rfl, ?_, rfl, rfl, rfl, rfl⟩
  have hpage : ({ (⟨0, 1⟩ : CPage) with
      refcount := ((⟨0, 1⟩ : CPage).refcount + (2 ^ 32 - 1)) % 2 ^ 32 }) = (⟨0, 0⟩ : CPage) := by
    show CPage.mk _ _ = _
    norm_num
  rw [hpage]

/-- Effect of freeing a run of n frames of the normal zone whose
descriptors are all flags 0 / refcount 1: exactly their zone-relative
bits are cleared and their refcounts drop to zero. -/
theorem pmm_free_pages_run (n : Nat) : ∀ (st : PMMState) (p0 : Nat),
    st.dma.end_pfn ≤ p0 → p0 + n ≤ st.total_pages →
    (∀ i, i < n → st.pages (p0 + i) = ⟨0, 1⟩) →
    (∀ j, (pmm_free_pages st (MEMORY_BASE + p0 * PAGE_SIZE) n).normal.bitmap j =
        if p0 - st.dma.end_pfn ≤ j ∧ j < p0 - st.dma.end_pfn + n then false
        else st.normal.bitmap j) ∧
    (pmm_free_pages st (MEMORY_BASE + p0 * PAGE_SIZE) n).dma = st.dma ∧
    (pmm_free_pages st (MEMORY_BASE + p0 * PAGE_SIZE) n).normal.start_pfn =
      st.normal.start_pfn ∧
    (pmm_free_pages st (MEMORY_BASE + p0 * PAGE_SIZE) n).normal.end_pfn =
      st.normal.end_pfn ∧
    (pmm_free_pages st (MEMORY_BASE + p0 * PAGE_SIZE) n).total_pages = st.total_pages ∧
    (∀ j, (pmm_free_pages st (MEMORY_BASE + p0 * PAGE_SIZE) n).pages j =
        if p0 ≤ j ∧ j < p0 + n then (⟨0, 0⟩ : CPage) else st.pages j) := by
  induction n with
  | zero =>
    intro st p0 _ _ _
    exact ⟨fun j => by rw [if_neg (by omega)]; rfl, rfl, rfl, rfl, rfl,
      fun j => by rw [if_neg (by omega)]; rfl⟩
  | succ n ih =>
    intro st p0 hge htot hpg
    obtain ⟨hb1, hp1, hd1, hs1, he1, ht1⟩ :=
      pmm_free_page_spec st p0 hge (by omega) (hpg 0 (by omega))
    have haddr : MEMORY_BASE + p0 * PAGE_SIZE + PAGE_SIZE =
        MEMORY_BASE + (p0 + 1) * PAGE_SIZE := by ring
    have hstep : pmm_free_pages st (MEMORY_BASE + p0 * PAGE_SIZE) (n + 1) =
        pmm_free_pages (pmm_free_page st (MEMORY_BASE + p0 * PAGE_SIZE))
          (MEMORY_BASE + (p0 + 1) * PAGE_SIZE) n := by
      rw [pmm_free_pages, haddr]
    set st1 := pmm_free_page st (MEMORY_BASE + p0 * PAGE_SIZE) with hst1
    have hihyp : ∀ i, i < n → st1.pages (p0 + 1 + i) = ⟨0, 1⟩ := by
      intro i hi
      rw [hp1, fupd, if_neg (by omega)]
      exact hpg (i + 1) (by omega) ▸ (by rw [show p0 + 1 + i = p0 + (i + 1) by omega])
    obtain ⟨ihb, ihd, ihs, ihe, iht, ihp⟩ :=
      ih st1 (p0 + 1) (by rw [hd1]; omega) (by rw [ht1]; omega) hihyp
    rw [hstep]
    refine ⟨fun j => ?_, by rw [ihd, hd1], by rw [ihs, hs1], by rw [ihe, he1],
      by rw [iht, ht1], fun j => ?_⟩
    · rw [ihb j, hd1, hb1]
      rw [bupd]
      by_cases hc1 : p0 + 1 - st.dma.end_pfn ≤ j ∧ j < p0 + 1 - st.dma.end_pfn + n
      · rw [if_pos hc1, if_pos (by omega)]
      · rw [if_neg hc1]
        by_cases hc2 : j = p0 - st.dma.end_pfn
        · rw [if_pos hc2, if_pos (by omega)]
        · rw [if_neg hc2, if_neg (by omega)]
    · rw [ihp j, hp1, fupd]
      by_cases hc1 : p0 + 1 ≤ j ∧ j < p0 + 1 + n
      · rw [if_pos hc1, if_pos (by omega)]
      · rw [if_neg hc1]
        by_cases hc2 : j = p0
        · rw [if_pos hc2, if_pos (by omega)]
        · rw [if_neg hc2, if_neg (by omega)]

set_option maxHeartbeats 1600000 in
/-- Specification of the over-allocation branch of the aligned allocator:
the returned address is an align-multiple, exactly the requested run of
pages (previously free) is newly held — the over-allocated head and tail
runs are given back — and the run lies inside the normal zone. -/
theorem pmm_alloc_aligned_over_spec (st : PMMState) (pages align_pages align k addr : Nat)
    (hwf : pmmWF st) (hk1 : 12 ≤ k) (hk2 : k ≤ 40) (halign : align = 2 ^ k)
    (hap : align_pages = 2 ^ (k - 12)) (hap2 : 2 ≤ align_pages) (hpg1 : 1 ≤ pages)
    (h : (pmm_alloc_aligned_over st pages align_pages align).1 = some addr) :
    addr % align = 0 ∧
    (∀ pfn, usedPfn (pmm_alloc_aligned_over st pages align_pages align).2 pfn =
        if (addr - MEMORY_BASE) / PAGE_SIZE ≤ pfn ∧
            pfn < (addr - MEMORY_BASE) / PAGE_SIZE + pages
        then true else usedPfn st pfn) ∧
    (∀ pfn, (addr - MEMORY_BASE) / PAGE_SIZE ≤ pfn →
        pfn < (addr - MEMORY_BASE) / PAGE_SIZE + pages → usedPfn st pfn = false) ∧
    (st.normal.start_pfn ≤ (addr - MEMORY_BASE) / PAGE_SIZE ∧
      (addr - MEMORY_BASE) / PAGE_SIZE + pages ≤ st.normal.end_pfn) := by
  obtain ⟨hdma0, hns, hne, htot, hde⟩ := hwf
  have hPS : PAGE_SIZE = 4096 := rfl
  have hMB : MEMORY_BASE = 1073741824 := rfl
  cases halloc : (pmm_alloc_pages st (pages + align_pages - 1)).1 with
  | none =>
    have heq : pmm_alloc_aligned_over st pages align_pages align =
        (none, (pmm_alloc_pages st (pages + align_pages - 1)).2) := by
      simp only [pmm_alloc_aligned_over]
      rw [halloc]
    rw [heq] at h
    exact absurd h (by simp)
  | some a0 =>
    have heq : pmm_alloc_aligned_over st pages align_pages align =
        (some (alignUp64 a0 align),
          if (pages + align_pages - 1) - (alignUp64 a0 align - a0) / PAGE_SIZE - pages > 0 then
            pmm_free_pages
              (if (alignUp64 a0 align - a0) / PAGE_SIZE > 0 then
                pmm_free_pages (pmm_alloc_pages st (pages + align_pages - 1)).2 a0
                  ((alignUp64 a0 align - a0) / PAGE_SIZE)
              else (pmm_alloc_pages st (pages + align_pages - 1)).2)
              (alignUp64 a0 align + pages * PAGE_SIZE)
              ((pages + align_pages - 1) - (alignUp64 a0 align - a0) / PAGE_SIZE - pages)
          else
            (if (alignUp64 a0 align - a0) / PAGE_SIZE > 0 then
              pmm_free_pages (pmm_alloc_pages st (pages + align_pages - 1)).2 a0
                ((alignUp64 a0 align - a0) / PAGE_SIZE)
            else (pmm_alloc_pages st (pages + align_pages - 1)).2)) := by
      simp only [pmm_alloc_aligned_over]
      rw [halloc]
    rw [heq] at h
    have haddr : addr = alignUp64 a0 align := by simpa using h.symm
    subst haddr
    obtain ⟨first, ha0, hrange, hfreeRun, hb1, hs1, he1, hd1, hp1, ht1⟩ :=
      pmm_alloc_pages_spec st (pages + align_pages - 1) a0 (by omega) halloc
    have hfreeRun' : ∀ j, st.normal.start_pfn + first ≤ j →
        j < st.normal.start_pfn + first + (pages + align_pages - 1) →
        st.normal.bitmap (j - st.normal.start_pfn) = false := by
      intro j hj1 hj2
      have := hfreeRun (j - st.normal.start_pfn - first) (by omega)
      rwa [show first + (j - st.normal.start_pfn - first) = j - st.normal.start_pfn by omega]
        at this
    have h64 : (2 : Nat) ^ 64 = 18446744073709551616 := by norm_num
    have h40 : (2 : Nat) ^ 40 = 1099511627776 := by norm_num
    have h18 : (2 : Nat) ^ 18 = 262144 := by norm_num
    have hP0 : st.normal.start_pfn + first + (pages + align_pages - 1) ≤ 2 ^ 18 := by omega
    have ha0v : a0 = 1073741824 + (st.normal.start_pfn + first) * 4096 := by
      rw [ha0, hPS, hMB]
    have halpos : 0 < align := by rw [halign]; positivity
    have hal4096 : align = 4096 * align_pages := by
      rw [halign, hap, show (4096 : Nat) = 2 ^ 12 by norm_num, ← pow_add]
      congr 1
      omega
    have halbound : align ≤ 2 ^ 40 := by
      rw [halign]
      exact pow_le_pow_right (by norm_num) hk2
    have ha0bound : a0 ≤ 2 ^ 32 := by rw [ha0v]; norm_num; omega
    have hlt64 : a0 + align - 1 < 2 ^ 64 := by norm_num at ha0bound ⊢; omega
    have haligned : alignUp64 a0 align = (a0 + align - 1) / align * align := by
      unfold alignUp64
      rw [halign] at hlt64 ⊢
      exact land_two_pow_complement (a0 + 2 ^ k - 1) k 64 hlt64 (by omega)
    have hgeA : a0 ≤ alignUp64 a0 align := by
      rw [haligned]
      have h2 := Nat.div_add_mod (a0 + align - 1) align
      have h3 : (a0 + align - 1) % align < align := Nat.mod_lt _ halpos
      rw [Nat.mul_comm]
      omega
    have hleA : alignUp64 a0 align ≤ a0 + align - 1 := by
      rw [haligned]
      exact Nat.div_mul_le_self _ _
    have hdvd_a0 : 4096 ∣ a0 :=
      ⟨262144 + (st.normal.start_pfn + first), by rw [ha0v]; ring⟩
    have hdvd_al : 4096 ∣ alignUp64 a0 align := by
      rw [haligned, hal4096]
      exact ⟨(a0 + 4096 * align_pages - 1) / (4096 * align_pages) * align_pages, by ring⟩
    obtain ⟨da, hda⟩ : 4096 ∣ (alignUp64 a0 align - a0) := Nat.dvd_sub' hdvd_al hdvd_a0
    have hskip : (alignUp64 a0 align - a0) / PAGE_SIZE = da := by rw [hPS, hda]; omega
    have hda_le : da ≤ align_pages - 1 := by
      have hleA2 : alignUp64 a0 align ≤ a0 + 4096 * align_pages - 1 := by
        rw [← hal4096]
        exact hleA
      omega
    have hALv : alignUp64 a0 align = 1073741824 + (st.normal.start_pfn + first + da) * 4096 := by
      have hAv : alignUp64 a0 align = a0 + 4096 * da := by omega
      rw [hAv, ha0v]
      ring
    have hlo : (alignUp64 a0 align - MEMORY_BASE) / PAGE_SIZE =
        st.normal.start_pfn + first + da := by
      rw [hALv, hPS, hMB]
      omega
    -- head trim: the st2 stage is the head free also when skip is zero
    have hst2 : (if (alignUp64 a0 align - a0) / PAGE_SIZE > 0 then
          pmm_free_pages (pmm_alloc_pages st (pages + align_pages - 1)).2 a0
            ((alignUp64 a0 align - a0) / PAGE_SIZE)
        else (pmm_alloc_pages st (pages + align_pages - 1)).2) =
        pmm_free_pages (pmm_alloc_pages st (pages + align_pages - 1)).2 a0
          ((alignUp64 a0 align - a0) / PAGE_SIZE) := by
      split
      · rfl
      · next hz =>
        rw [show (alignUp64 a0 align - a0) / PAGE_SIZE = 0 by omega]
        rfl
    have hrun1 := pmm_free_pages_run da (pmm_alloc_pages st (pages + align_pages - 1)).2
      (st.normal.start_pfn + first)
      (by rw [hd1]; omega)
      (by rw [ht1]; omega)
      (by
        intro i hi
        rw [hp1, initPagesFrom_at, if_pos (by omega)])
    rw [← ha0] at hrun1
    obtain ⟨hr1b, hr1d, hr1s, hr1e, hr1t, hr1p⟩ := hrun1
    rw [hskip] at hst2
    -- tail trim
    have hst3 : (if (pages + align_pages - 1) - (alignUp64 a0 align - a0) / PAGE_SIZE - pages > 0 then
          pmm_free_pages
            (if (alignUp64 a0 align - a0) / PAGE_SIZE > 0 then
              pmm_free_pages (pmm_alloc_pages st (pages + align_pages - 1)).2 a0
                ((alignUp64 a0 align - a0) / PAGE_SIZE)
            else (pmm_alloc_pages st (pages + align_pages - 1)).2)
            (alignUp64 a0 align + pages * PAGE_SIZE)
            ((pages + align_pages - 1) - (alignUp64 a0 align - a0) / PAGE_SIZE - pages)
        else
          (if (alignUp64 a0 align - a0) / PAGE_SIZE > 0 then
            pmm_free_pages (pmm_alloc_pages st (pages + align_pages - 1)).2 a0
              ((alignUp64 a0 align - a0) / PAGE_SIZE)
          else (pmm_alloc_pages st (pages + align_pages - 1)).2)) =
        pmm_free_pages
          (pmm_free_pages (pmm_alloc_pages st (pages + align_pages - 1)).2 a0 da)
          (alignUp64 a0 align + pages * PAGE_SIZE)
          ((pages + align_pages - 1) - da - pages) := by
      rw [hskip, hst2]
      split
      · rfl
      · next hz =>
        rw [show (pages + align_pages - 1) - da - pages = 0 by omega]
        rfl
    have htail : alignUp64 a0 align + pages * PAGE_SIZE =
        MEMORY_BASE + (st.normal.start_pfn + first + da + pages) * PAGE_SIZE := by
      rw [hALv, hPS, hMB]
      ring
    have hrun2 := pmm_free_pages_run ((pages + align_pages - 1) - da - pages)
      (pmm_free_pages (pmm_alloc_pages st (pages + align_pages - 1)).2 a0 da)
      (st.normal.start_pfn + first + da + pages)
      (by rw [hr1d, hd1]; omega)
      (by rw [hr1t, ht1]; omega)
      (by
        intro i hi
        rw [hr1p, if_neg (by omega), hp1, initPagesFrom_at, if_pos (by omega)])
    rw [← htail] at hrun2
    obtain ⟨hr2b, hr2d, hr2s, hr2e, hr2t, _⟩ := hrun2
    -- the fully trimmed final state
    have hfinal : (pmm_alloc_aligned_over st pages align_pages align).2 =
        pmm_free_pages
          (pmm_free_pages (pmm_alloc_pages st (pages + align_pages - 1)).2 a0 da)
          (alignUp64 a0 align + pages * PAGE_SIZE)
          ((pages + align_pages - 1) - da - pages) := by
      rw [heq]
      exact hst3
    have hbmj : ∀ j, first ≤ j → j < first + (pages + align_pages - 1) →
        st.normal.bitmap j = false := by
      intro j hj1 hj2
      have := hfreeRun (j - first) (by omega)
      rwa [show first + (j - first) = j by omega] at this
    refine ⟨?_, ?_, ?_, by omega⟩
    · rw [haligned]
      exact Nat.mul_mod_left _ _
    · intro pfn
      rw [hfinal, hlo]
      unfold usedPfn
      rw [hr2d, hr1d, hd1]
      by_cases hpiv : pfn < st.dma.end_pfn
      · rw [if_pos hpiv, if_pos hpiv, if_neg (by omega)]
      · rw [if_neg hpiv, if_neg hpiv]
        rw [hr2b, hr1d, hd1, hr1b, hd1, hb1, setBitsFrom_at]
        have hbm : ∀ hj1 : first ≤ pfn - st.dma.end_pfn,
            ∀ hj2 : pfn - st.dma.end_pfn < first + (pages + align_pages - 1),
            st.normal.bitmap (pfn - st.dma.end_pfn) = false :=
          fun hj1 hj2 => hbmj _ hj1 hj2
        by_cases hTT : st.normal.start_pfn + first + da ≤ pfn ∧
            pfn < st.normal.start_pfn + first + da + pages
        · rw [if_pos hTT, if_neg (by omega), if_neg (by omega), if_pos (by omega)]
        · rw [if_neg hTT]
          by_cases hA : st.normal.start_pfn + first + da + pages - st.dma.end_pfn ≤
              pfn - st.dma.end_pfn ∧
              pfn - st.dma.end_pfn <
                st.normal.start_pfn + first + da + pages - st.dma.end_pfn +
                  ((pages + align_pages - 1) - da - pages)
          · rw [if_pos hA]
            exact (hbm (by omega) (by omega)).symm
          · rw [if_neg hA]
            by_cases hB : st.normal.start_pfn + first - st.dma.end_pfn ≤
                pfn - st.dma.end_pfn ∧
                pfn - st.dma.end_pfn < st.normal.start_pfn + first - st.dma.end_pfn + da
            · rw [if_pos hB]
              exact (hbm (by omega) (by omega)).symm
            · rw [if_neg hB, if_neg (by omega)]
    · intro pfn hge2 hlt2
      rw [hlo] at hge2 hlt2
      clear h heq hst2 hst3 hfinal hr1b hr1d hr1s hr1e hr1t hr1p hr2b hr2d hr2s hr2e hr2t
      unfold usedPfn
      rw [if_neg (by omega)]
      exact hbmj _ (by omega) (by omega)

set_option maxHeartbeats 1600000 in
/-- C8: for every successful call to pmm_alloc_aligned with size S > 0 and
alignment a power of two at least the page size, the returned address is a
multiple of the alignment, exactly the requested ceil(S/page) frames —
previously free — become held while every other frame keeps its state (the
over-allocated head and tail runs are freed back), and the returned range
lies entirely within one zone. -/
theorem pmm_alloc_aligned_spec (st : PMMState) (size align k addr : Nat)
    (hwf : pmmWF st) (hk1 : 12 ≤ k) (hk2 : k ≤ 40) (halign : align = 2 ^ k)
    (hsz : 0 < size) (h : (pmm_alloc_aligned st size align).1 = some addr) :
    addr % align = 0 ∧
    (∀ pfn, usedPfn (pmm_alloc_aligned st size align).2 pfn =
        if (addr - MEMORY_BASE) / PAGE_SIZE ≤ pfn ∧
            pfn < (addr - MEMORY_BASE) / PAGE_SIZE + (size + PAGE_SIZE - 1) / PAGE_SIZE
        then true else usedPfn st pfn) ∧
    (∀ pfn, (addr - MEMORY_BASE) / PAGE_SIZE ≤ pfn →
        pfn < (addr - MEMORY_BASE) / PAGE_SIZE + (size + PAGE_SIZE - 1) / PAGE_SIZE →
        usedPfn st pfn = false) ∧
    ((st.normal.start_pfn ≤ (addr - MEMORY_BASE) / PAGE_SIZE ∧
        (addr - MEMORY_BASE) / PAGE_SIZE + (size + PAGE_SIZE - 1) / PAGE_SIZE ≤
          st.normal.end_pfn) ∨
      (st.dma.start_pfn ≤ (addr - MEMORY_BASE) / PAGE_SIZE ∧
        (addr - MEMORY_BASE) / PAGE_SIZE + (size + PAGE_SIZE - 1) / PAGE_SIZE ≤
          st.dma.end_pfn)) := by
  have hPS : PAGE_SIZE = 4096 := rfl
  have hMB : MEMORY_BASE = 1073741824 := rfl
  have hpg1 : 1 ≤ (size + PAGE_SIZE - 1) / PAGE_SIZE := by rw [hPS]; omega
  have hpow : (2 : Nat) ^ k = 4096 * 2 ^ (k - 12) := by
    rw [show (4096 : Nat) = 2 ^ 12 by norm_num, ← pow_add]
    congr 1
    omega
  have hap_eq : (align + PAGE_SIZE - 1) / PAGE_SIZE = 2 ^ (k - 12) := by
    rw [halign, hPS, hpow]
    omega
  by_cases hk12 : k = 12
  · -- alignment within one page: the wrapper routes to pmm_alloc_pages
    obtain ⟨hdma0, hns, hne, htot, hde⟩ := hwf
    have hal : align = 4096 := by rw [halign, hk12]; norm_num
    have heqA : pmm_alloc_aligned st size align =
        pmm_alloc_pages st ((size + PAGE_SIZE - 1) / PAGE_SIZE) := by
      simp only [pmm_alloc_aligned]
      rw [if_pos (by rw [hap_eq, hk12]; norm_num)]
    rw [heqA] at h ⊢
    by_cases hp1c : (size + PAGE_SIZE - 1) / PAGE_SIZE = 1
    · -- a single page: pmm_alloc_pages defers to pmm_alloc_page
      rw [hp1c] at h ⊢
      have heq1 : pmm_alloc_pages st 1 = pmm_alloc_page st := rfl
      rw [heq1] at h ⊢
      rcases pmm_alloc_page_spec st addr h with
        ⟨pfn0, hb, hfree0, haddr, hbm, hstart, hend, hdmaP, htotP⟩ |
        ⟨pfn0, hb, hfree0, haddr, hbm, hstart, hend, hnormP, htotP⟩
      · -- served from the normal zone
        have haddrv : addr = 1073741824 + (st.normal.start_pfn + pfn0) * 4096 := by
          rw [haddr, hPS, hMB]
        have hlo : (addr - MEMORY_BASE) / PAGE_SIZE = st.normal.start_pfn + pfn0 := by
          rw [haddrv, hPS, hMB]
          omega
        refine ⟨by rw [hal]; omega, ?_, ?_, Or.inl (by omega)⟩
        · intro pfn
          rw [hlo]
          unfold usedPfn
          rw [hdmaP, hbm]
          simp only [bupd]
          by_cases hpiv : pfn < st.dma.end_pfn
          · rw [if_pos hpiv, if_pos hpiv, if_neg (by omega)]
          · rw [if_neg hpiv, if_neg hpiv]
            by_cases hhit : pfn - st.dma.end_pfn = pfn0
            · rw [if_pos hhit, if_pos (by omega)]
            · rw [if_neg hhit, if_neg (by omega)]
        · intro pfn hge2 hlt2
          rw [hlo] at hge2 hlt2
          unfold usedPfn
          rw [if_neg (by omega), show pfn - st.dma.end_pfn = pfn0 by omega]
          exact hfree0
      · -- served from the DMA zone
        have haddrv : addr = 1073741824 + (st.dma.start_pfn + pfn0) * 4096 := by
          rw [haddr, hPS, hMB]
        have hlo : (addr - MEMORY_BASE) / PAGE_SIZE = pfn0 := by
          rw [haddrv, hPS, hMB, hdma0]
          omega
        refine ⟨by rw [hal]; omega, ?_, ?_, Or.inr (by omega)⟩
        · intro pfn
          rw [hlo]
          unfold usedPfn
          rw [hend, hbm, hnormP]
          simp only [bupd]
          by_cases hpiv : pfn < st.dma.end_pfn
          · rw [if_pos hpiv, if_pos hpiv]
            by_cases hhit : pfn = pfn0
            · rw [if_pos hhit, if_pos (by omega)]
            · rw [if_neg hhit, if_neg (by omega)]
          · rw [if_neg hpiv, if_neg hpiv, if_neg (by omega)]
        · intro pfn hge2 hlt2
          rw [hlo] at hge2 hlt2
          unfold usedPfn
          rw [if_pos (by omega), show pfn = pfn0 by omega]
          exact hfree0
    · -- two or more pages: the contiguous normal-zone run
      have hc2 : 2 ≤ (size + PAGE_SIZE - 1) / PAGE_SIZE := by omega
      obtain ⟨first, haddr, hrange, hfreeRun, hb1, hs1, he1, hd1, hp1, ht1⟩ :=
        pmm_alloc_pages_spec st _ addr hc2 h
      have haddrv : addr = 1073741824 + (st.normal.start_pfn + first) * 4096 := by
        rw [haddr, hPS, hMB]
      have hlo : (addr - MEMORY_BASE) / PAGE_SIZE = st.normal.start_pfn + first := by
        rw [haddrv, hPS, hMB]
        omega
      refine ⟨by rw [hal]; omega, ?_, ?_, Or.inl (by omega)⟩
      · intro pfn
        rw [hlo]
        unfold usedPfn
        rw [hd1, hb1, setBitsFrom_at]
        by_cases hpiv : pfn < st.dma.end_pfn
        · rw [if_pos hpiv, if_pos hpiv, if_neg (by omega)]
        · rw [if_neg hpiv, if_neg hpiv]
          by_cases hin : first ≤ pfn - st.dma.end_pfn ∧
              pfn - st.dma.end_pfn < first + (size + PAGE_SIZE - 1) / PAGE_SIZE
          · rw [if_pos hin, if_pos (by omega)]
          · rw [if_neg hin, if_neg (by omega)]
      · intro pfn hge2 hlt2
        rw [hlo] at hge2 hlt2
        unfold usedPfn
        rw [if_neg (by omega)]
        have hj := hfreeRun (pfn - st.dma.end_pfn - first) (by omega)
        rwa [show first + (pfn - st.dma.end_pfn - first) = pfn - st.dma.end_pfn by omega]
          at hj
  · -- a true multi-page alignment: the over-allocating branch
    have hap2 : 2 ≤ (align + PAGE_SIZE - 1) / PAGE_SIZE := by
      rw [hap_eq]
      calc 2 = 2 ^ 1 := by norm_num
        _ ≤ 2 ^ (k - 12) := Nat.pow_le_pow_right (by norm_num) (by omega)
    have heqB : pmm_alloc_aligned st size align =
        pmm_alloc_aligned_over st ((size + PAGE_SIZE - 1) / PAGE_SIZE)
          ((align + PAGE_SIZE - 1) / PAGE_SIZE) align := by
      simp only [pmm_alloc_aligned]
      rw [if_neg (by omega)]
    rw [heqB] at h ⊢
    obtain ⟨c1, c2, c3, c4⟩ :=
      pmm_alloc_aligned_over_spec st _ _ align k addr hwf hk1 hk2 halign hap_eq hap2 hpg1 h
    exact ⟨c1, c2, c3, Or.inl c4⟩

/-- The aligned-allocator specification exercised on a concrete state:
three pages at alignment 8192 = 2^13 out of an all-free 32-frame state land
on the 8192-aligned address 0x40004000. -/
theorem pmm_alloc_aligned_spec_witness :
    pmmWF stC8 ∧ 0 < 12288 ∧
    (pmm_alloc_aligned stC8 12288 8192).1 = some 1073758208 ∧
    1073758208 % 8192 = 0 :=
  ⟨⟨rfl, rfl, rfl, by decide, by decide⟩, by norm_num, by decide,
    (pmm_alloc_aligned_spec stC8 12288 8192 13 1073758208
      ⟨rfl, rfl, rfl, by decide, by decide⟩ (by norm_num) (by norm_num)
      (by norm_num) (by norm_num) (by decide)).1⟩
